import Mathlib

/-!
Shallow embedding of the logique-activitylog storage layer.

Scope: the Entry data model (src/interfaces/ActivityLogEntry.ts), the
filter vocabulary and the in-memory query evaluator
(src/utils/ActivityLogQuery.ts), the indexed key-value backend
(src/storage/adapters/RedisAdapter.ts), the file backend
(FileStorage, src/unnamed/part_000) and entry creation
(src/ActivityLog.ts).

Modelling conventions:
* JavaScript `Date` values and the ISO strings they serialize to are both
  represented by `TimeVal`, tagged by which of the two forms a runtime
  value has; both carry the epoch-millisecond instant (`toISOString` /
  `new Date(iso)` round-trip at millisecond precision).
* JavaScript `string | number` ids are `SCId`; strict equality `===` is
  `SCId` equality (a string is never `===` a number).
* Truthiness of the JS guards (`if (filters?.x)`) is modelled per type:
  a string is truthy iff nonempty, a number iff nonzero, `undefined` is
  falsy, object values (dates, subjects) are truthy when present.
* Redis keys `${keyPrefix}:subject_type:${v}` … are modelled by the
  inductive `SetKey`; the seven category markers are pairwise distinct
  string segments, so the flat key strings are injectively represented.
  Primary-record keys `${keyPrefix}:${id}` are represented by `id`.
* Asynchrony is dropped: every operation is a pure state transition.
-/

/-- JavaScript `string | number`, used for subject/causer ids
(src/interfaces/ActivityLogSubject.ts, ActivityLogCauser.ts). -/
inductive SCId where
  | str (s : String)
  | num (n : Int)
deriving DecidableEq

/-- JS truthiness of a `string | number` value: `""` and `0` are falsy. -/
def SCId.truthy : SCId → Bool
  | .str s => s != ""
  | .num n => n != 0

/-- Template-literal stringification of a `string | number` value, as used
when building Redis set-key names. -/
def SCId.toKey : SCId → String
  | .str s => s
  | .num n => toString n

/-- A runtime timestamp value: either a JS `Date` or the ISO-8601 string a
`Date` serializes to.  Both carry the epoch-millisecond instant. -/
inductive TimeVal where
  | date (ms : Nat)
  | isoStr (ms : Nat)
deriving DecidableEq

/-- The millisecond instant a `TimeVal` denotes.  For a `Date` this is
`getTime()`; for an ISO string it is `new Date(s).getTime()`. -/
def TimeVal.jsTime : TimeVal → Nat
  | .date ms => ms
  | .isoStr ms => ms

/-- Abstract relational comparison `v < new Date(t)` as JS evaluates it:
a `Date` compares by instant; an ISO *string* compared against a `Date`
coerces to `NaN`, so every comparison on it is false. -/
def TimeVal.jsLtDate : TimeVal → Nat → Bool
  | .date ms, t => ms < t
  | .isoStr _, _ => false

/-- Abstract relational comparison `v > new Date(t)` (see `jsLtDate`). -/
def TimeVal.jsGtDate : TimeVal → Nat → Bool
  | .date ms, t => t < ms
  | .isoStr _, _ => false

/-- Abstract relational comparison `v >= new Date(t)` (see `jsLtDate`). -/
def TimeVal.jsGeDate : TimeVal → Nat → Bool
  | .date ms, t => t ≤ ms
  | .isoStr _, _ => false

/-- Abstract relational comparison `v <= new Date(t)` (see `jsLtDate`). -/
def TimeVal.jsLeDate : TimeVal → Nat → Bool
  | .date ms, t => ms ≤ t
  | .isoStr _, _ => false

/-- ActivityLogSubject: the entity acted upon.  `attributes`/`changes`
are open JSON objects; they are carried as opaque serialized values. -/
structure Subject where
  type : String
  id : SCId
  attributes : Option String := none
  changes : Option String := none
deriving DecidableEq

/-- ActivityLogCauser: the actor. -/
structure Causer where
  type : String
  id : SCId
  name : Option String := none
  attributes : Option String := none
deriving DecidableEq

/-- ActivityLogProperties: an open string-keyed mapping; JS objects keep
string keys in insertion order, so it is an association list.  Values are
carried as opaque serialized JSON. -/
abbrev Properties := List (String × String)

/-- ActivityLogEntry (src/interfaces/ActivityLogEntry.ts). -/
structure Entry where
  id : String
  name : String
  description : Option String := none
  level : String
  event : String
  subject : Option Subject := none
  causer : Option Causer := none
  properties : Option Properties := none
  batchId : Option String := none
  createdAt : TimeVal
  updatedAt : TimeVal
deriving DecidableEq

/-- An entry whose timestamps are `Date` values (as produced by
`ActivityLog.log`), not ISO strings. -/
def Entry.dateForm (e : Entry) : Prop :=
  e.createdAt = .date e.createdAt.jsTime ∧ e.updatedAt = .date e.updatedAt.jsTime

instance (e : Entry) : Decidable e.dateForm := by
  unfold Entry.dateForm; infer_instance

/-- JS truthiness of a string. -/
def strTruthy (s : String) : Bool := s != ""

/-- Truthiness of an optional string (`undefined` is falsy). -/
def optStrTruthy : Option String → Bool
  | some s => strTruthy s
  | none => false

/-- Truthiness of an optional `string | number`. -/
def optSCIdTruthy : Option SCId → Bool
  | some v => v.truthy
  | none => false

/-- Truthiness of an optional number (0 is falsy). -/
def optNatTruthy : Option Nat → Bool
  | some n => n != 0
  | none => false

/-- The filter/query vocabulary shared by `find` on every backend and by
the query builder (the optional-parameter object literal type). -/
structure Filters where
  subjectType : Option String := none
  subjectId : Option SCId := none
  causerType : Option String := none
  causerId : Option SCId := none
  event : Option String := none
  level : Option String := none
  batchId : Option String := none
  fromDate : Option Nat := none
  toDate : Option Nat := none
  limit : Option Nat := none
  offset : Option Nat := none
deriving DecidableEq

/-- The filter type accepted by `count`/`delete`: same fields as `Filters`
but with no `limit`/`offset` (they are absent from those signatures). -/
structure CountFilters where
  subjectType : Option String := none
  subjectId : Option SCId := none
  causerType : Option String := none
  causerId : Option SCId := none
  event : Option String := none
  level : Option String := none
  batchId : Option String := none
  fromDate : Option Nat := none
  toDate : Option Nat := none
deriving DecidableEq

/-- A `count`/`delete` filter viewed as a `find` filter: the object is
passed through unchanged, and it carries no `limit`/`offset`. -/
def CountFilters.toFind (f : CountFilters) : Filters :=
  { subjectType := f.subjectType, subjectId := f.subjectId
    causerType := f.causerType, causerId := f.causerId
    event := f.event, level := f.level, batchId := f.batchId
    fromDate := f.fromDate, toDate := f.toDate
    limit := none, offset := none }

/-- Sort order used by every backend: `(a, b) => b.createdAt.getTime() -
a.createdAt.getTime()`, i.e. newest first.  `byCreatedDesc a b` says `a`
may come before `b`. -/
def byCreatedDesc (a b : Entry) : Prop :=
  b.createdAt.jsTime ≤ a.createdAt.jsTime

instance : DecidableRel byCreatedDesc := fun a b =>
  inferInstanceAs (Decidable (_ ≤ _))

instance : IsTotal Entry byCreatedDesc :=
  ⟨fun a b => Nat.le_total b.createdAt.jsTime a.createdAt.jsTime⟩

instance : IsTrans Entry byCreatedDesc :=
  ⟨fun _ _ _ h₁ h₂ => Nat.le_trans h₂ h₁⟩

/-- `entries.sort((a, b) => b.createdAt.getTime() - a.createdAt.getTime())`:
a stable descending sort by creation instant. -/
def sortDesc (l : List Entry) : List Entry := List.insertionSort byCreatedDesc l

/-- ActivityLogQuery.apply (src/utils/ActivityLogQuery.ts, lines 175-227):
evaluate the accumulated filters against an in-memory list — guarded
equality filters in sequence, then sort newest-first, then offset, then
limit.  Each guard is the JS truthiness test `if (this.filters.x)`; the
comparisons are strict equality with optional chaining
(`entry.subject?.type === this.filters.subjectType`). -/
def ActivityLogQuery.apply (f : Filters) (entries : List Entry) : List Entry :=
  let filtered := entries
  let filtered := if optStrTruthy f.subjectType then
      filtered.filter (fun e => e.subject.map Subject.type == f.subjectType)
    else filtered
  let filtered := if optSCIdTruthy f.subjectId then
      filtered.filter (fun e => e.subject.map Subject.id == f.subjectId)
    else filtered
  let filtered := if optStrTruthy f.causerType then
      filtered.filter (fun e => e.causer.map Causer.type == f.causerType)
    else filtered
  let filtered := if optSCIdTruthy f.causerId then
      filtered.filter (fun e => e.causer.map Causer.id == f.causerId)
    else filtered
  let filtered := if optStrTruthy f.event then
      filtered.filter (fun e => some e.event == f.event)
    else filtered
  let filtered := if optStrTruthy f.level then
      filtered.filter (fun e => some e.level == f.level)
    else filtered
  let filtered := if optStrTruthy f.batchId then
      filtered.filter (fun e => e.batchId == f.batchId)
    else filtered
  let filtered := if f.fromDate.isSome then
      filtered.filter (fun e => e.createdAt.jsGeDate (f.fromDate.getD 0))
    else filtered
  let filtered := if f.toDate.isSome then
      filtered.filter (fun e => e.createdAt.jsLeDate (f.toDate.getD 0))
    else filtered
  let sorted := sortDesc filtered
  let paged := if optNatTruthy f.offset then sorted.drop (f.offset.getD 0) else sorted
  if optNatTruthy f.limit then paged.take (f.limit.getD 0) else paged

/-! ### Indexed KV backend (RedisAdapter) -/

/-- A Redis set-key name.  The adapter builds the flat strings
`${keyPrefix}:subject_type:${v}`, `…:subject_id:${v}`, `…:causer_type:${v}`,
`…:causer_id:${v}`, `…:event:${v}`, `…:level:${v}`, `…:batch:${v}`; the
seven category markers are pairwise distinct, so category-plus-value is an
injective representation of those strings. -/
inductive SetKey where
  | subjectType (v : String)
  | subjectId (v : String)
  | causerType (v : String)
  | causerId (v : String)
  | event (v : String)
  | level (v : String)
  | batch (v : String)
deriving DecidableEq

/-- The category-index sets: Redis sets addressed by `SetKey`, each holding
entry ids in insertion order (Redis reports set members in an unspecified
order; insertion order is one concrete refinement of that). -/
abbrev Sets := List (SetKey × List String)

/-- First value bound to a key in the set table (keys are unique by
construction). -/
def setMembers : Sets → SetKey → List String
  | [], _ => []
  | (k', l) :: rest, k => if k' = k then l else setMembers rest k

/-- Redis SADD: add a member to a set (no-op when already present),
creating the set when missing. -/
def sAdd : Sets → SetKey → String → Sets
  | [], k, v => [(k, [v])]
  | (k', l) :: rest, k, v =>
      if k' = k then (k', if v ∈ l then l else l ++ [v]) :: rest
      else (k', l) :: sAdd rest k v

/-- Redis SREM: remove a member from a set (no-op when absent). -/
def sRem : Sets → SetKey → String → Sets
  | [], _, _ => []
  | (k', l) :: rest, k, v =>
      if k' = k then (k', l.filter (· ≠ v)) :: rest
      else (k', l) :: sRem rest k v

/-- The timeline sorted set: entries `(score, member)` with score =
`createdAt` epoch millis, kept in Redis order (by score, ties by member). -/
abbrev Timeline := List (Nat × String)

/-- Redis sorted-set order: by score, ties broken lexicographically by
member. -/
def tlLe (p q : Nat × String) : Prop :=
  p.1 < q.1 ∨ (p.1 = q.1 ∧ p.2 ≤ q.2)

instance : DecidableRel tlLe := fun p q => by
  unfold tlLe; infer_instance

instance : IsTotal (Nat × String) tlLe := by
  constructor
  intro p q
  rcases Nat.lt_trichotomy p.1 q.1 with h | h | h
  · exact Or.inl (Or.inl h)
  · rcases le_total p.2 q.2 with h2 | h2
    · exact Or.inl (Or.inr ⟨h, h2⟩)
    · exact Or.inr (Or.inr ⟨h.symm, h2⟩)
  · exact Or.inr (Or.inl h)

instance : IsTrans (Nat × String) tlLe := by
  constructor
  intro p q r hpq hqr
  rcases hpq with h | ⟨he, hs⟩
  · rcases hqr with h' | ⟨he', _⟩
    · exact Or.inl (h.trans h')
    · exact Or.inl (he' ▸ h)
  · rcases hqr with h' | ⟨he', hs'⟩
    · exact Or.inl (he ▸ h')
    · exact Or.inr ⟨he.trans he', hs.trans hs'⟩

/-- Redis ZADD: set the member's score (dropping any previous score) and
keep the structure ordered. -/
def zAdd (tl : Timeline) (score : Nat) (member : String) : Timeline :=
  List.orderedInsert tlLe (score, member) (tl.filter (fun p => p.2 ≠ member))

/-- Redis ZREM: drop a member from the sorted set. -/
def zRem (tl : Timeline) (member : String) : Timeline :=
  tl.filter (fun p => p.2 ≠ member)

/-- Redis ZRANGEBYSCORE over `[fromDate ?? -inf, toDate ?? +inf]`
(inclusive bounds), returning members in timeline order. -/
def zRangeByScore (tl : Timeline) (lo hi : Option Nat) : List String :=
  (tl.filter (fun p =>
    (match lo with | some a => decide (a ≤ p.1) | none => true) &&
    (match hi with | some b => decide (p.1 ≤ b) | none => true))).map Prod.snd

/-- State of the indexed KV backend: primary records (key `id`, value the
parsed stored JSON), the timeline, and the category-index sets. -/
structure RedisStore where
  records : List (String × Entry)
  timeline : Timeline
  sets : Sets
deriving DecidableEq

/-- The empty backend state. -/
def RedisStore.empty : RedisStore := ⟨[], [], []⟩

/-- Association-list write (`client.set key data`): replace the value if
the key exists, else append the pair. -/
def kvSet : List (String × Entry) → String → Entry → List (String × Entry)
  | [], k, v => [(k, v)]
  | (k', v') :: rest, k, v =>
      if k' = k then (k, v) :: rest else (k', v') :: kvSet rest k v

/-- Association-list read (`client.get key`). -/
def kvGet : List (String × Entry) → String → Option Entry
  | [], _ => none
  | (k', v') :: rest, k => if k' = k then some v' else kvGet rest k

/-- Association-list delete (`client.del key`). -/
def kvDel (l : List (String × Entry)) (k : String) : List (String × Entry) :=
  l.filter (fun p => p.1 ≠ k)

/-- The JSON object `JSON.stringify(entry)` produces (used verbatim as
the Redis primary record and as a JSON file line): every field carried
over, except the `Date` fields serialize via `toISOString()` to strings. -/
def isoSerialize (e : Entry) : Entry :=
  { e with createdAt := .isoStr e.createdAt.jsTime
           updatedAt := .isoStr e.updatedAt.jsTime }

/-- RedisAdapter.mapDataToEntry: rebuild an entry from stored data,
turning the `created_at`/`updated_at` strings back into `Date`s. -/
def mapDataToEntry (d : Entry) : Entry :=
  { d with createdAt := .date d.createdAt.jsTime
           updatedAt := .date d.updatedAt.jsTime }

/-- Guard `if (entry.subject?.type)` with the key it indexes under. -/
def subjectTypeKey (e : Entry) : Option SetKey :=
  match e.subject with
  | some sub => if strTruthy sub.type then some (.subjectType sub.type) else none
  | none => none

/-- Guard `if (entry.subject?.id)` with the key it indexes under
(the id is stringified by the template literal). -/
def subjectIdKey (e : Entry) : Option SetKey :=
  match e.subject with
  | some sub => if sub.id.truthy then some (.subjectId sub.id.toKey) else none
  | none => none

/-- Guard `if (entry.causer?.type)` with the key it indexes under. -/
def causerTypeKey (e : Entry) : Option SetKey :=
  match e.causer with
  | some c => if strTruthy c.type then some (.causerType c.type) else none
  | none => none

/-- Guard `if (entry.causer?.id)` with the key it indexes under. -/
def causerIdKey (e : Entry) : Option SetKey :=
  match e.causer with
  | some c => if c.id.truthy then some (.causerId c.id.toKey) else none
  | none => none

/-- Guard `if (entry.event)` with the key it indexes under. -/
def eventKey (e : Entry) : Option SetKey :=
  if strTruthy e.event then some (.event e.event) else none

/-- Guard `if (entry.level)` with the key it indexes under. -/
def levelKey (e : Entry) : Option SetKey :=
  if strTruthy e.level then some (.level e.level) else none

/-- Guard `if (entry.batchId)` with the key it indexes under. -/
def batchKey (e : Entry) : Option SetKey :=
  match e.batchId with
  | some b => if strTruthy b then some (.batch b) else none
  | none => none

/-- Conditional SADD: perform the add when the guard produced a key. -/
def condSAdd (s : Sets) (k : Option SetKey) (v : String) : Sets :=
  match k with
  | some key => sAdd s key v
  | none => s

/-- Conditional SREM: perform the removal when the guard produced a key. -/
def condSRem (s : Sets) (k : Option SetKey) (v : String) : Sets :=
  match k with
  | some key => sRem s key v
  | none => s

/-- The sequence of category-set keys an entry's own field values place it
in — exactly the seven guarded `sAdd` calls of `store`, in order. -/
def entrySetKeys (e : Entry) : List SetKey :=
  (subjectTypeKey e).toList ++ (subjectIdKey e).toList ++
  (causerTypeKey e).toList ++ (causerIdKey e).toList ++
  (eventKey e).toList ++ (levelKey e).toList ++ (batchKey e).toList

/-- The seven guarded `sAdd` calls of RedisAdapter.store (lines 55-77). -/
def redisStoreSets (s : Sets) (e : Entry) : Sets :=
  let s := condSAdd s (subjectTypeKey e) e.id
  let s := condSAdd s (subjectIdKey e) e.id
  let s := condSAdd s (causerTypeKey e) e.id
  let s := condSAdd s (causerIdKey e) e.id
  let s := condSAdd s (eventKey e) e.id
  let s := condSAdd s (levelKey e) e.id
  condSAdd s (batchKey e) e.id

/-- The seven guarded `sRem` calls of RedisAdapter.delete (lines 260-280),
driven by the resolved entry's own field values. -/
def redisRemSets (s : Sets) (e : Entry) : Sets :=
  let s := condSRem s (subjectTypeKey e) e.id
  let s := condSRem s (subjectIdKey e) e.id
  let s := condSRem s (causerTypeKey e) e.id
  let s := condSRem s (causerIdKey e) e.id
  let s := condSRem s (eventKey e) e.id
  let s := condSRem s (levelKey e) e.id
  condSRem s (batchKey e) e.id

/-- RedisAdapter.store (lines 31-77): write the primary record, add the id
to the timeline (score = creation instant), add the id to every category
set whose field is present and truthy. -/
def RedisAdapter.store (st : RedisStore) (e : Entry) : RedisStore :=
  { records := kvSet st.records e.id (isoSerialize e)
    timeline := zAdd st.timeline e.createdAt.jsTime e.id
    sets := redisStoreSets st.sets e }

/-- Store a list of entries in order (repeated `store`; `storeBatch`
pipelines the same per-entry operations). -/
def RedisAdapter.storeAll (es : List Entry) (st : RedisStore) : RedisStore :=
  es.foldl RedisAdapter.store st

/-- RedisAdapter.findById (lines 132-139): read the primary record and map
it back to an entry; missing key is `null`. -/
def RedisAdapter.findById (st : RedisStore) (id : String) : Option Entry :=
  (kvGet st.records id).map mapDataToEntry

/-- The set keys RedisAdapter.find pushes for the present, truthy filter
fields (lines 155-177), in push order. -/
def filterSetKeys (f : Filters) : List SetKey :=
  (match f.subjectType with
   | some v => if strTruthy v then [SetKey.subjectType v] else []
   | none => []) ++
  (match f.subjectId with
   | some v => if v.truthy then [SetKey.subjectId v.toKey] else []
   | none => []) ++
  (match f.causerType with
   | some v => if strTruthy v then [SetKey.causerType v] else []
   | none => []) ++
  (match f.causerId with
   | some v => if v.truthy then [SetKey.causerId v.toKey] else []
   | none => []) ++
  (match f.event with
   | some v => if strTruthy v then [SetKey.event v] else []
   | none => []) ++
  (match f.level with
   | some v => if strTruthy v then [SetKey.level v] else []
   | none => []) ++
  (match f.batchId with
   | some v => if strTruthy v then [SetKey.batch v] else []
   | none => [])

/-- Redis SINTER: members of the first set that belong to every other
set (member order inherited from the first set; Redis leaves it
unspecified). -/
def sInterList (st : RedisStore) : List SetKey → List String
  | [] => []
  | k :: ks =>
      (setMembers st.sets k).filter
        (fun v => ks.all (fun k' => decide (v ∈ setMembers st.sets k')))

/-- RedisAdapter.find (lines 141-222): intersect the category sets of the
truthy filter fields (or read the full timeline when none is present),
restrict by the timeline range when a date bound is present, apply
offset/limit to that id list, fetch each id's record, and sort the fetched
entries newest-first. -/
def RedisAdapter.find (st : RedisStore) (f : Filters) : List Entry :=
  let setKeys := filterSetKeys f
  let ids := if setKeys.isEmpty then st.timeline.map Prod.snd
             else sInterList st setKeys
  let ids := if f.fromDate.isSome || f.toDate.isSome then
      let range := zRangeByScore st.timeline f.fromDate f.toDate
      ids.filter (fun id => decide (id ∈ range))
    else ids
  let ids := if optNatTruthy f.offset then ids.drop (f.offset.getD 0) else ids
  let ids := if optNatTruthy f.limit then ids.take (f.limit.getD 0) else ids
  sortDesc (ids.filterMap (RedisAdapter.findById st))

/-- RedisAdapter.count (lines 224-237): the length of `find` on the same
filter object (which carries no limit/offset). -/
def RedisAdapter.count (st : RedisStore) (f : CountFilters) : Nat :=
  (RedisAdapter.find st f.toFind).length

/-- One iteration of RedisAdapter.delete's loop: remove the primary
record, the timeline entry, and the category-set memberships determined by
the resolved entry's own fields. -/
def redisDeleteOne (st : RedisStore) (e : Entry) : RedisStore :=
  { records := kvDel st.records e.id
    timeline := zRem st.timeline e.id
    sets := redisRemSets st.sets e }

/-- RedisAdapter.delete (lines 239-285): resolve the matching entries via
`find`, then remove each one's record, timeline entry and set
memberships; returns the resolved count and the new state. -/
def RedisAdapter.delete (st : RedisStore) (f : CountFilters) : Nat × RedisStore :=
  let entries := RedisAdapter.find st f.toFind
  (entries.length, entries.foldl redisDeleteOne st)

/-! ### File backend (FileStorage) -/

/-- FileStorageConfig `type`: the serialization format. -/
inductive FileFormat where
  | json
  | csv
  | log
deriving DecidableEq

/-- FileStorageConfig after the constructor's default merge.  Fields keep
their optionality; every use site applies its own fallback
(`this.config.x || default` or a truthiness guard), which is what is
modelled. -/
structure FileConfig where
  ftype : FileFormat := .json
  directory : String := "./logs"
  filename : Option String := none
  maxFileSize : Option Nat := none
  maxFiles : Option Nat := none
  append : Bool := true
  enableBatchLogging : Bool := false
  batchSize : Option Nat := none
deriving DecidableEq

/-- The wall-clock components FileStorage reads from `new Date()`:
`getFullYear`, `getMonth() + 1`, `getDate`, `getHours`, `getMinutes`,
`getSeconds` (month is already 1-based here). -/
structure DateParts where
  year : Nat
  month : Nat
  day : Nat
  hour : Nat
  minute : Nat
  second : Nat
deriving DecidableEq

/-- JS `n.toString().padStart(2, '0')`. -/
def pad2 (n : Nat) : String :=
  if n < 10 then "0" ++ toString n else toString n

/-- Split a character list at the first occurrence of a pattern,
returning the parts before and after it (`none` when it does not occur). -/
def firstSplit (pat : List Char) : List Char → Option (List Char × List Char)
  | [] => if pat == [] then some ([], []) else none
  | c :: rest =>
      if pat.isPrefixOf (c :: rest) then some ([], (c :: rest).drop pat.length)
      else match firstSplit pat rest with
        | some (pre, post) => some (c :: pre, post)
        | none => none

/-- JS `String.prototype.replace` with a string pattern: replace only the
first occurrence (identity when the pattern does not occur). -/
def replaceFirst (s pat rep : String) : String :=
  match firstSplit pat.data s.data with
  | some (pre, post) => String.mk (pre ++ rep.data ++ post)
  | none => s

/-- JS `String.prototype.endsWith`. -/
def strEndsWith (s suf : String) : Bool :=
  decide (suf.data.length ≤ s.data.length) &&
    s.data.drop (s.data.length - suf.data.length) == suf.data

/-- FileStorage.getCurrentFilePath (part_000 lines 58-71): take the
configured pattern (falling back to `activity-{YYYY}-{MM}-{DD}.log` when
absent or empty), substitute each date placeholder once, and join it onto
the directory. -/
def getCurrentFilePath (cfg : FileConfig) (now : DateParts) : String :=
  let filename := match cfg.filename with
    | some s => if strTruthy s then s else "activity-{YYYY}-{MM}-{DD}.log"
    | none => "activity-{YYYY}-{MM}-{DD}.log"
  let filename := replaceFirst filename "{YYYY}" (toString now.year)
  let filename := replaceFirst filename "{MM}" (pad2 now.month)
  let filename := replaceFirst filename "{DD}" (pad2 now.day)
  let filename := replaceFirst filename "{HH}" (pad2 now.hour)
  let filename := replaceFirst filename "{mm}" (pad2 now.minute)
  let filename := replaceFirst filename "{ss}" (pad2 now.second)
  cfg.directory ++ "/" ++ filename

/-- One line of a log file: either a line that `JSON.parse` turns back
into an entry object (timestamps as ISO strings), or a CSV/plain-log line
that cannot be parsed back. -/
inductive FileLine where
  | json (e : Entry)
  | unparsable
deriving DecidableEq

/-- Byte length of a serialized line.  The exact JSON/CSV byte count is
not modelled; rotation only compares the accumulated size against
`maxFileSize`, so any fixed positive accounting preserves the control
flow under test. -/
def lineByteLength (_ : FileLine) : Nat := 1

/-- State of the file backend: the directory contents (filename to its
lines, in creation order), the tracked current file and its byte size,
and the batching buffer. -/
structure FileState where
  cfg : FileConfig
  files : List (String × List FileLine)
  currentFile : String
  currentFileSize : Nat
  buffer : List Entry := []
  bufferSize : Nat := 0
deriving DecidableEq

/-- Effective rotation threshold: `this.config.maxFileSize || 10 * 1024 *
1024` (absent or zero falls back to 10MB). -/
def effMaxFileSize (cfg : FileConfig) : Nat :=
  match cfg.maxFileSize with
  | some n => if n != 0 then n else 10485760
  | none => 10485760

/-- FileStorage.rotateFile (part_000 lines 73-81): only when the tracked
size has reached the threshold, recompute the patterned path from the
current clock; switch (and reset the size) only if it differs. -/
def FileStorage.rotateFile (st : FileState) (now : DateParts) : FileState :=
  if st.currentFileSize ≥ effMaxFileSize st.cfg then
    let newFile := getCurrentFilePath st.cfg now
    if newFile ≠ st.currentFile then
      { st with currentFile := newFile, currentFileSize := 0 }
    else st
  else st

/-- File lookup in the directory map. -/
def fsGet : List (String × List FileLine) → String → Option (List FileLine)
  | [], _ => none
  | (k', v') :: rest, k => if k' = k then some v' else fsGet rest k

/-- Replace a file's contents in the directory map. -/
def fsSet : List (String × List FileLine) → String → List FileLine →
    List (String × List FileLine)
  | [], k, v => [(k, v)]
  | (k', v') :: rest, k, v =>
      if k' = k then (k, v) :: rest else (k', v') :: fsSet rest k v

/-- `fs.writeFile(name, lines, { flag })`: flag `w` truncates, flag `a`
appends; either creates the file when missing. -/
def fsWrite (files : List (String × List FileLine)) (name : String)
    (lines : List FileLine) (truncate : Bool) : List (String × List FileLine) :=
  match fsGet files name with
  | some old => fsSet files name (if truncate then lines else old ++ lines)
  | none => files ++ [(name, lines)]

/-- FileStorage.writeToFile (part_000 lines 83-93) generalized to a chunk
of lines (flushBuffer writes several newline-joined lines in one call;
`store` writes one): run the size-gated rotation check, pick write mode
`w` when appending onto a zero-size file else `a`, write, and grow the
tracked size by the serialized bytes plus the newline. -/
def FileStorage.writeChunk (st : FileState) (lines : List FileLine)
    (now : DateParts) : FileState :=
  let st := FileStorage.rotateFile st now
  let truncate := st.cfg.append && st.currentFileSize == 0
  let files := fsWrite st.files st.currentFile lines truncate
  { st with files := files
            currentFileSize :=
              st.currentFileSize + (lines.map (fun l => lineByteLength l + 1)).sum }

/-- Serialize one entry to a line in the configured format
(FileStorage.writeEntry, part_000 lines 116-134): JSON keeps every field
with timestamps as ISO strings; CSV and plain-log lines cannot be parsed
back into entries. -/
def serializeLine (cfg : FileConfig) (e : Entry) : FileLine :=
  match cfg.ftype with
  | .json => .json (isoSerialize e)
  | .csv => .unparsable
  | .log => .unparsable

/-- FileStorage.writeEntry: serialize and write one line. -/
def FileStorage.writeEntry (st : FileState) (e : Entry) (now : DateParts) :
    FileState :=
  FileStorage.writeChunk st [serializeLine st.cfg e] now

/-- FileStorage.flushBuffer (part_000 lines 165-185): join the buffered
entries' lines and write them as one chunk, then clear the buffer. -/
def FileStorage.flushBuffer (st : FileState) (now : DateParts) : FileState :=
  if st.buffer.isEmpty then st
  else
    let st' := FileStorage.writeChunk st (st.buffer.map (serializeLine st.cfg)) now
    { st' with buffer := [], bufferSize := 0 }

/-- Abstract length of `JSON.stringify(entry)` used only for the buffer
byte counter (never compared against anything in the claims). -/
def entryJsonSize (_ : Entry) : Nat := 1

/-- FileStorage.store (part_000 lines 95-106): buffer when batch logging
is enabled (flushing on reaching the batch size, default 100), else write
the entry immediately. -/
def FileStorage.store (st : FileState) (e : Entry) (now : DateParts) : FileState :=
  if st.cfg.enableBatchLogging then
    let st := { st with buffer := st.buffer ++ [e]
                        bufferSize := st.bufferSize + entryJsonSize e }
    if st.buffer.length ≥ (match st.cfg.batchSize with
        | some n => if n != 0 then n else 100
        | none => 100) then
      FileStorage.flushBuffer st now
    else st
  else FileStorage.writeEntry st e now

/-- Lexicographic (code-unit) string order used by JS `Array.sort()` on
file names. -/
def strLe (a b : String) : Prop := a ≤ b

instance : DecidableRel strLe := fun a b => inferInstanceAs (Decidable (_ ≤ _))

/-- FileStorage.getLogFiles (part_000 lines 329-342): all directory
entries ending in `.log`, name-sorted descending (newest first), capped to
`maxFiles` when that is truthy. -/
def FileStorage.getLogFiles (st : FileState) : List String :=
  let names := (st.files.map Prod.fst).filter (fun n => strEndsWith n ".log")
  let sorted := (List.insertionSort strLe names).reverse
  if optNatTruthy st.cfg.maxFiles then sorted.take (st.cfg.maxFiles.getD 0)
  else sorted

/-- FileStorage.readFile (part_000 lines 344-365): in JSON mode, parse
each line and skip the unparsable ones; CSV/plain-log formats cannot be
reconstructed, so every line maps to `null` and is filtered out.  A
missing file reads as empty. -/
def FileStorage.readFile (st : FileState) (name : String) : List Entry :=
  match fsGet st.files name with
  | none => []
  | some lines =>
      if st.cfg.ftype = .json then
        lines.filterMap (fun l => match l with
          | .json e => some e
          | .unparsable => none)
      else []

/-- FileStorage.findById (part_000 lines 187-197): scan the matched files
newest-name-first and return the first entry with the id. -/
def FileStorage.findById (st : FileState) (id : String) : Option Entry :=
  (FileStorage.getLogFiles st).findSome?
    (fun f => (FileStorage.readFile st f).find? (fun e => e.id = id))

/-- The early-return filter body of FileStorage.find (part_000 lines
221-232): each truthy filter field must match; `fromDate`/`toDate` exclude
via JS relational comparison on `createdAt` (false on ISO-string dates). -/
def fileMatches (f : Filters) (e : Entry) : Bool :=
  (!optStrTruthy f.subjectType || e.subject.map Subject.type == f.subjectType) &&
  (!optSCIdTruthy f.subjectId || e.subject.map Subject.id == f.subjectId) &&
  (!optStrTruthy f.causerType || e.causer.map Causer.type == f.causerType) &&
  (!optSCIdTruthy f.causerId || e.causer.map Causer.id == f.causerId) &&
  (!optStrTruthy f.event || some e.event == f.event) &&
  (!optStrTruthy f.level || some e.level == f.level) &&
  (!optStrTruthy f.batchId || e.batchId == f.batchId) &&
  (!f.fromDate.isSome || !(e.createdAt.jsLtDate (f.fromDate.getD 0))) &&
  (!f.toDate.isSome || !(e.createdAt.jsGtDate (f.toDate.getD 0)))

/-- FileStorage.find (part_000 lines 199-250): concatenate every matched
file's parsed entries, filter, sort newest-first, then apply the truthy
offset and limit. -/
def FileStorage.find (st : FileState) (f : Filters) : List Entry :=
  let allEntries := (FileStorage.getLogFiles st).foldl
    (fun acc name => acc ++ FileStorage.readFile st name) []
  let filtered := allEntries.filter (fileMatches f)
  let sorted := sortDesc filtered
  let paged := if optNatTruthy f.offset then sorted.drop (f.offset.getD 0) else sorted
  if optNatTruthy f.limit then paged.take (f.limit.getD 0) else paged

/-- FileStorage.count (part_000 lines 252-265): length of `find` on the
same filter object (which carries no limit/offset). -/
def FileStorage.count (st : FileState) (f : CountFilters) : Nat :=
  (FileStorage.find st f.toFind).length

/-- FileStorage.delete (part_000 lines 267-282): selective deletion is not
supported on append-only files; unconditionally report 0 removed and leave
the state untouched. -/
def FileStorage.delete (st : FileState) (_ : CountFilters) : Nat × FileState :=
  (0, st)

/-! ### Entry creation (ActivityLog) -/

/-- ActivityLogConfig after the constructor's default merge
(src/ActivityLog.ts lines 16-28); only the fields entry creation reads. -/
structure ALConfig where
  defaultLevel : Option String := some "info"
  maxProperties : Option Nat := some 1000
deriving DecidableEq

/-- The options object accepted by `ActivityLog.log`. -/
structure LogOptions where
  name : String
  description : Option String := none
  level : Option String := none
  event : Option String := none
  subject : Option Subject := none
  causer : Option Causer := none
  properties : Option Properties := none
deriving DecidableEq

/-- JS `a || b` on an optional string: the fallback wins when `a` is
absent or empty. -/
def jsOrStr (a : Option String) (b : String) : String :=
  match a with
  | some s => if strTruthy s then s else b
  | none => b

/-- ActivityLog.limitProperties (src/ActivityLog.ts lines 343-358):
`undefined` passes through; otherwise copy the first
`this.config.maxProperties || 1000` keys in insertion order. -/
def ActivityLog.limitProperties (cfg : ALConfig) (properties : Option Properties) :
    Option Properties :=
  match properties with
  | none => none
  | some props =>
      let maxKeys := match cfg.maxProperties with
        | some n => if n != 0 then n else 1000
        | none => 1000
      some (props.take maxKeys)

/-- The entry literal built by ActivityLog.log (src/ActivityLog.ts lines
69-81).  `genId` stands for the generated `uuidv4()`; `t1` and `t2` are
the instants read by the two successive `new Date()` calls for
`createdAt` and `updatedAt`. -/
def ActivityLog.log (cfg : ALConfig) (opts : LogOptions)
    (batchId : Option String) (genId : String) (t1 t2 : Nat) : Entry :=
  { id := genId
    name := opts.name
    description := match opts.description with
      | some d => if strTruthy d then some d else none
      | none => none
    level := jsOrStr opts.level (jsOrStr cfg.defaultLevel "info")
    event := jsOrStr opts.event "custom"
    subject := opts.subject
    causer := opts.causer
    properties := ActivityLog.limitProperties cfg opts.properties
    batchId := batchId
    createdAt := .date t1
    updatedAt := .date t2 }

/-! ### Derived definitions used in the statements -/

/-- Oldest-first order on entries (the order the timeline enumerates). -/
def byCreatedAsc (a b : Entry) : Prop :=
  a.createdAt.jsTime ≤ b.createdAt.jsTime

instance : DecidableRel byCreatedAsc := fun a b =>
  inferInstanceAs (Decidable (_ ≤ _))

instance : IsTotal Entry byCreatedAsc :=
  ⟨fun a b => Nat.le_total a.createdAt.jsTime b.createdAt.jsTime⟩

instance : IsTrans Entry byCreatedAsc :=
  ⟨fun _ _ _ h₁ h₂ => Nat.le_trans h₁ h₂⟩

/-- Entries sorted oldest-first by creation instant. -/
def sortAsc (l : List Entry) : List Entry := List.insertionSort byCreatedAsc l

/-- Drop a present-but-falsy optional string (empty string) as if absent. -/
def normStr : Option String → Option String
  | some s => if strTruthy s then some s else none
  | none => none

/-- Drop a present-but-falsy optional id (0 or empty string) as if absent. -/
def normSCId : Option SCId → Option SCId
  | some v => if v.truthy then some v else none
  | none => none

/-- Drop a present-but-zero optional number as if absent. -/
def normNat : Option Nat → Option Nat
  | some n => if n != 0 then some n else none
  | none => none

/-- The filter with every falsy categorical field and a zero offset removed
(`fromDate`/`toDate`/`limit` untouched). -/
def falsyNormalize (f : Filters) : Filters :=
  { f with subjectType := normStr f.subjectType
           subjectId := normSCId f.subjectId
           causerType := normStr f.causerType
           causerId := normSCId f.causerId
           event := normStr f.event
           level := normStr f.level
           batchId := normStr f.batchId
           offset := normNat f.offset }

/-- The conjunction of ActivityLogQuery.apply's seven guarded categorical
conditions as one predicate. -/
def catMatches (f : Filters) (e : Entry) : Bool :=
  (!optStrTruthy f.subjectType || e.subject.map Subject.type == f.subjectType) &&
  (!optSCIdTruthy f.subjectId || e.subject.map Subject.id == f.subjectId) &&
  (!optStrTruthy f.causerType || e.causer.map Causer.type == f.causerType) &&
  (!optSCIdTruthy f.causerId || e.causer.map Causer.id == f.causerId) &&
  (!optStrTruthy f.event || some e.event == f.event) &&
  (!optStrTruthy f.level || some e.level == f.level) &&
  (!optStrTruthy f.batchId || e.batchId == f.batchId)

/-- The conjunction of ActivityLogQuery.apply's two guarded date-range
conditions. -/
def dateMatches (f : Filters) (e : Entry) : Bool :=
  (!f.fromDate.isSome || e.createdAt.jsGeDate (f.fromDate.getD 0)) &&
  (!f.toDate.isSome || e.createdAt.jsLeDate (f.toDate.getD 0))

/-- The conjunction of ActivityLogQuery.apply's nine guarded conditions as
one predicate (used to state what the sequential filter stages compute). -/
def applyMatches (f : Filters) (e : Entry) : Bool :=
  catMatches f e && dateMatches f e

/-- The id list RedisAdapter.find materializes before pagination and
fetching: the categorical set intersection (or the full timeline), then
the timeline date-range restriction when a bound is present. -/
def candidateIds (st : RedisStore) (f : Filters) : List String :=
  let setKeys := filterSetKeys f
  let ids := if setKeys.isEmpty then st.timeline.map Prod.snd
             else sInterList st setKeys
  if f.fromDate.isSome || f.toDate.isSome then
    let range := zRangeByScore st.timeline f.fromDate f.toDate
    ids.filter (fun id => decide (id ∈ range))
  else ids

/-- Whether any categorical filter field is present and truthy (the
condition under which RedisAdapter.find uses set intersection instead of
the full timeline). -/
def hasCategorical (f : Filters) : Bool :=
  optStrTruthy f.subjectType || optSCIdTruthy f.subjectId ||
  optStrTruthy f.causerType || optSCIdTruthy f.causerId ||
  optStrTruthy f.event || optStrTruthy f.level || optStrTruthy f.batchId

/-- No string/number aliasing between a filter id and an entry id: if their
template-literal stringifications agree, the values are strictly equal.
(Strict equality distinguishes the number 5 from the string "5", but both
stringify to the Redis set key suffix "5".) -/
def idAliasFree (fo so : Option SCId) : Prop :=
  ∀ fv sv, fo = some fv → so = some sv → fv.toKey = sv.toKey → fv = sv

/-- Entries with distinct creation instants. -/
def timesNe (a b : Entry) : Prop := a.createdAt.jsTime ≠ b.createdAt.jsTime

/-- Strictly-newer-first order on entries. -/
def strictDesc (a b : Entry) : Prop :=
  b.createdAt.jsTime < a.createdAt.jsTime

/-- Strictly-older-first order on entries. -/
def strictAsc (a b : Entry) : Prop :=
  a.createdAt.jsTime < b.createdAt.jsTime

instance : DecidableRel timesNe := fun a b =>
  inferInstanceAs (Decidable (_ ≠ _))

instance : DecidableRel strictDesc := fun a b =>
  inferInstanceAs (Decidable (_ < _))

instance : DecidableRel strictAsc := fun a b =>
  inferInstanceAs (Decidable (_ < _))

/-! ### Concrete fixtures for witnesses and counterexamples -/

/-- A minimal entry with the given id and creation instant. -/
def mkE (i : String) (t : Nat) : Entry :=
  { id := i, name := "n", level := "info", event := "created",
    createdAt := .date t, updatedAt := .date t }

/-- Ten entries with distinct ids and distinct ascending instants. -/
def tenEntries : List Entry :=
  [mkE "a" 1, mkE "b" 2, mkE "c" 3, mkE "d" 4, mkE "e" 5,
   mkE "f" 6, mkE "g" 7, mkE "h" 8, mkE "i" 9, mkE "j" 10]

/-- The indexed KV store holding the ten entries. -/
def redisTen : RedisStore := RedisAdapter.storeAll tenEntries RedisStore.empty

/-- The pagination-only filter of the pagination claim. -/
def pagFilter : Filters := { limit := some 3, offset := some 2 }

/-- A daily-pattern file configuration (the default pattern). -/
def fileCfgDaily : FileConfig := { filename := some "activity-{YYYY}-{MM}-{DD}.log" }

/-- First day of the scenario clock. -/
def dayOne : DateParts := ⟨2024, 1, 1, 0, 0, 0⟩

/-- The next day (the pattern boundary has been crossed). -/
def dayTwo : DateParts := ⟨2024, 1, 2, 0, 0, 0⟩

/-- A fresh file-backend state initialized on day one over an empty
directory. -/
def fileStDay1 : FileState :=
  { cfg := fileCfgDaily, files := [],
    currentFile := getCurrentFilePath fileCfgDaily dayOne,
    currentFileSize := 0 }

/-- An entry with a subject, for the delete scenario. -/
def subjEntry : Entry :=
  { mkE "s1" 3 with subject := some { type := "User", id := .num 7 } }

/-- A two-entry store for the delete scenario. -/
def twoStore : RedisStore :=
  RedisAdapter.storeAll [subjEntry, mkE "s2" 4] RedisStore.empty

/-- The delete filter matching `subjEntry`. -/
def subjFilter : CountFilters :=
  { subjectType := some "User", subjectId := some (.num 7) }

/-- Minimal log options. -/
def plainOpts : LogOptions := { name := "n" }

/-! ### Association-list and set lemmas -/

theorem setMembers_sAdd_self (s : Sets) (k : SetKey) (v : String) :
    setMembers (sAdd s k v) k =
      if v ∈ setMembers s k then setMembers s k else setMembers s k ++ [v] := by
  induction s with
  | nil => simp [sAdd, setMembers]
  | cons p rest ih =>
      obtain ⟨k₀, l⟩ := p
      by_cases h : k₀ = k
      · subst h
        simp [sAdd, setMembers]
      · simp [sAdd, setMembers, h, ih]

theorem setMembers_sAdd_other (s : Sets) (k : SetKey) (v : String) (k' : SetKey)
    (h : k' ≠ k) : setMembers (sAdd s k v) k' = setMembers s k' := by
  have h2 : ¬k = k' := fun hh => h hh.symm
  induction s with
  | nil => simp [sAdd, setMembers, h2]
  | cons p rest ih =>
      obtain ⟨k₀, l⟩ := p
      by_cases h0 : k₀ = k
      · subst h0
        simp [sAdd, setMembers, h2]
      · simp [sAdd, setMembers, h0, ih]

theorem mem_setMembers_sAdd {s : Sets} {k k' : SetKey} {v a : String} :
    a ∈ setMembers (sAdd s k v) k' ↔ a ∈ setMembers s k' ∨ (k' = k ∧ a = v) := by
  by_cases h : k' = k
  · subst h
    rw [setMembers_sAdd_self]
    by_cases hv : v ∈ setMembers s k'
    · rw [if_pos hv]
      constructor
      · exact fun hm => Or.inl hm
      · rintro (hm | ⟨-, rfl⟩)
        · exact hm
        · exact hv
    · rw [if_neg hv]
      simp [List.mem_append]
  · rw [setMembers_sAdd_other s k v k' h]
    simp [h]

theorem setMembers_sRem_self (s : Sets) (k : SetKey) (v : String) :
    setMembers (sRem s k v) k = (setMembers s k).filter (· ≠ v) := by
  induction s with
  | nil => simp [sRem, setMembers]
  | cons p rest ih =>
      obtain ⟨k₀, l⟩ := p
      by_cases h : k₀ = k
      · subst h
        simp [sRem, setMembers]
      · simp [sRem, setMembers, h, ih]

theorem setMembers_sRem_other (s : Sets) (k : SetKey) (v : String) (k' : SetKey)
    (h : k' ≠ k) : setMembers (sRem s k v) k' = setMembers s k' := by
  have h2 : ¬k = k' := fun hh => h hh.symm
  induction s with
  | nil => simp [sRem, setMembers]
  | cons p rest ih =>
      obtain ⟨k₀, l⟩ := p
      by_cases h0 : k₀ = k
      · subst h0
        simp [sRem, setMembers, h2]
      · simp [sRem, setMembers, h0, ih]

theorem mem_setMembers_sRem {s : Sets} {k k' : SetKey} {v a : String} :
    a ∈ setMembers (sRem s k v) k' ↔ a ∈ setMembers s k' ∧ ¬(k' = k ∧ a = v) := by
  by_cases h : k' = k
  · subst h
    rw [setMembers_sRem_self]
    simp [List.mem_filter]
  · rw [setMembers_sRem_other s k v k' h]
    simp [h]

theorem mem_setMembers_condSAdd {s : Sets} {o : Option SetKey} {v a : String}
    {k : SetKey} :
    a ∈ setMembers (condSAdd s o v) k ↔
      a ∈ setMembers s k ∨ (o = some k ∧ a = v) := by
  cases o with
  | none => simp [condSAdd]
  | some key =>
      rw [show condSAdd s (some key) v = sAdd s key v from rfl,
        mem_setMembers_sAdd]
      simp [eq_comm]

theorem mem_setMembers_condSRem {s : Sets} {o : Option SetKey} {v a : String}
    {k : SetKey} :
    a ∈ setMembers (condSRem s o v) k ↔
      a ∈ setMembers s k ∧ ¬(o = some k ∧ a = v) := by
  cases o with
  | none => simp [condSRem]
  | some key =>
      rw [show condSRem s (some key) v = sRem s key v from rfl,
        mem_setMembers_sRem]
      simp [eq_comm]

theorem mem_entrySetKeys {e : Entry} {k : SetKey} :
    k ∈ entrySetKeys e ↔
      subjectTypeKey e = some k ∨ subjectIdKey e = some k ∨
      causerTypeKey e = some k ∨ causerIdKey e = some k ∨
      eventKey e = some k ∨ levelKey e = some k ∨ batchKey e = some k := by
  simp [entrySetKeys, Option.mem_toList, Option.mem_def]

theorem mem_setMembers_storeSets {s : Sets} {e : Entry} {a : String} {k : SetKey} :
    a ∈ setMembers (redisStoreSets s e) k ↔
      a ∈ setMembers s k ∨ (k ∈ entrySetKeys e ∧ a = e.id) := by
  simp only [redisStoreSets, mem_setMembers_condSAdd, mem_entrySetKeys]
  tauto

theorem mem_setMembers_remSets {s : Sets} {e : Entry} {a : String} {k : SetKey} :
    a ∈ setMembers (redisRemSets s e) k ↔
      a ∈ setMembers s k ∧ ¬(k ∈ entrySetKeys e ∧ a = e.id) := by
  simp only [redisRemSets, mem_setMembers_condSRem, mem_entrySetKeys]
  tauto

theorem kvGet_kvSet {r : List (String × Entry)} {k k' : String} {v : Entry} :
    kvGet (kvSet r k v) k' = if k' = k then some v else kvGet r k' := by
  induction r with
  | nil =>
      simp only [kvSet, kvGet]
      by_cases h : k' = k
      · subst h
        simp
      · rw [if_neg (fun hh : k = k' => h hh.symm), if_neg h]
  | cons p rest ih =>
      obtain ⟨k₀, v₀⟩ := p
      by_cases h : k₀ = k
      · subst h
        simp only [kvSet, if_pos rfl, kvGet]
        by_cases h' : k' = k₀
        · subst h'
          simp
        · have h3 : ¬k₀ = k' := fun hh => h' hh.symm
          rw [if_neg h3, if_neg h', if_neg h3]
      · simp only [kvSet, if_neg h, kvGet]
        by_cases h' : k₀ = k'
        · subst h'
          rw [if_pos rfl, if_neg (fun hh : k₀ = k => h hh), if_pos rfl]
        · rw [if_neg h', ih]
          by_cases h2 : k' = k
          · rw [if_pos h2, if_pos h2]
          · rw [if_neg h2, if_neg h2, if_neg h']

theorem kvGet_kvDel {r : List (String × Entry)} {k k' : String} :
    kvGet (kvDel r k) k' = if k' = k then none else kvGet r k' := by
  induction r with
  | nil =>
      by_cases h : k' = k <;> simp [kvDel, kvGet, h]
  | cons p rest ih =>
      obtain ⟨k₀, v₀⟩ := p
      by_cases h : k₀ = k
      · subst h
        have : kvDel ((k₀, v₀) :: rest) k₀ = kvDel rest k₀ := by
          simp [kvDel, List.filter]
        rw [this, ih]
        by_cases h' : k' = k₀
        · rw [if_pos h', if_pos h']
        · have h3 : ¬k₀ = k' := fun hh => h' hh.symm
          rw [if_neg h', if_neg h']
          simp only [kvGet]
          rw [if_neg h3]
      · have : kvDel ((k₀, v₀) :: rest) k = (k₀, v₀) :: kvDel rest k := by
          simp [kvDel, List.filter, h]
        rw [this]
        simp only [kvGet]
        by_cases h' : k₀ = k'
        · subst h'
          rw [if_pos rfl, if_neg (fun hh : k₀ = k => h hh), if_pos rfl]
        · rw [if_neg h', ih]
          by_cases h2 : k' = k
          · rw [if_pos h2, if_pos h2]
          · rw [if_neg h2, if_neg h2, if_neg h']

/-! ### Characterizing the state after a sequence of stores -/

theorem mem_setMembers_storeAll {es : List Entry} {st : RedisStore} {a : String}
    {k : SetKey} :
    a ∈ setMembers (RedisAdapter.storeAll es st).sets k ↔
      a ∈ setMembers st.sets k ∨ ∃ e ∈ es, a = e.id ∧ k ∈ entrySetKeys e := by
  induction es generalizing st with
  | nil => simp [RedisAdapter.storeAll]
  | cons e es ih =>
      have step : RedisAdapter.storeAll (e :: es) st =
          RedisAdapter.storeAll es (RedisAdapter.store st e) := rfl
      rw [step, ih]
      have hsets : (RedisAdapter.store st e).sets = redisStoreSets st.sets e := rfl
      rw [hsets, mem_setMembers_storeSets]
      simp only [List.mem_cons]
      constructor
      · rintro ((h | ⟨hk, rfl⟩) | ⟨e', he', rfl, hk⟩)
        · exact Or.inl h
        · exact Or.inr ⟨e, Or.inl rfl, rfl, hk⟩
        · exact Or.inr ⟨e', Or.inr he', rfl, hk⟩
      · rintro (h | ⟨e', he' | he', rfl, hk⟩)
        · exact Or.inl (Or.inl h)
        · subst he'
          exact Or.inl (Or.inr ⟨hk, rfl⟩)
        · exact Or.inr ⟨e', he', rfl, hk⟩

theorem kvGet_storeAll_untouched {es : List Entry} {st : RedisStore} {k : String}
    (h : ∀ e ∈ es, e.id ≠ k) :
    kvGet (RedisAdapter.storeAll es st).records k = kvGet st.records k := by
  induction es generalizing st with
  | nil => rfl
  | cons e es ih =>
      have step : RedisAdapter.storeAll (e :: es) st =
          RedisAdapter.storeAll es (RedisAdapter.store st e) := rfl
      rw [step, ih (fun e' he' => h e' (List.mem_cons_of_mem _ he'))]
      have : (RedisAdapter.store st e).records =
          kvSet st.records e.id (isoSerialize e) := rfl
      rw [this, kvGet_kvSet,
        if_neg (fun hh : k = e.id => h e (List.mem_cons_self _ _) hh.symm)]

theorem kvGet_storeAll_of_mem {es : List Entry} {st : RedisStore} {e : Entry}
    (hmem : e ∈ es) (huniq : ∀ e' ∈ es, e'.id = e.id → e' = e) :
    kvGet (RedisAdapter.storeAll es st).records e.id = some (isoSerialize e) := by
  induction es generalizing st with
  | nil => cases hmem
  | cons e₀ es ih =>
      have step : RedisAdapter.storeAll (e₀ :: es) st =
          RedisAdapter.storeAll es (RedisAdapter.store st e₀) := rfl
      rw [step]
      by_cases h : e ∈ es
      · exact ih h (fun e' he' => huniq e' (List.mem_cons_of_mem _ he'))
      · have he : e = e₀ := by
          rcases List.mem_cons.mp hmem with h0 | h0
          · exact h0
          · exact absurd h0 h
        subst he
        have hnone : ∀ e' ∈ es, e'.id ≠ e.id := by
          intro e' he' hid
          exact h (huniq e' (List.mem_cons_of_mem _ he') hid ▸ he')
        rw [kvGet_storeAll_untouched hnone]
        have : (RedisAdapter.store st e).records =
            kvSet st.records e.id (isoSerialize e) := rfl
        rw [this, kvGet_kvSet, if_pos rfl]

theorem kvGet_storeAll_some {es : List Entry} {st : RedisStore} {k : String}
    {v : Entry}
    (h : kvGet (RedisAdapter.storeAll es st).records k = some v) :
    kvGet st.records k = some v ∨ ∃ e ∈ es, e.id = k ∧ v = isoSerialize e := by
  induction es generalizing st with
  | nil => exact Or.inl h
  | cons e es ih =>
      have step : RedisAdapter.storeAll (e :: es) st =
          RedisAdapter.storeAll es (RedisAdapter.store st e) := rfl
      rw [step] at h
      rcases ih h with h1 | ⟨e', he', rfl, rfl⟩
      · have hrec : (RedisAdapter.store st e).records =
            kvSet st.records e.id (isoSerialize e) := rfl
        rw [hrec, kvGet_kvSet] at h1
        by_cases hk : k = e.id
        · rw [if_pos hk] at h1
          exact Or.inr ⟨e, List.mem_cons_self _ _, hk.symm, (Option.some_inj.mp h1).symm⟩
        · rw [if_neg hk] at h1
          exact Or.inl h1
      · exact Or.inr ⟨e', List.mem_cons_of_mem _ he', rfl, rfl⟩

/-! ### Timeline lemmas -/

theorem zAdd_of_fresh {tl : Timeline} {s : Nat} {m : String}
    (h : ∀ p ∈ tl, p.2 ≠ m) :
    zAdd tl s m = List.orderedInsert tlLe (s, m) tl := by
  unfold zAdd
  congr 1
  apply List.filter_eq_self.mpr
  intro p hp
  simpa using h p hp

theorem sorted_zAdd {tl : Timeline} {s : Nat} {m : String}
    (h : List.Sorted tlLe tl) : List.Sorted tlLe (zAdd tl s m) := by
  unfold zAdd
  exact List.Sorted.orderedInsert _ _ (List.Pairwise.sublist (tl.filter_sublist) h)

theorem perm_zAdd_of_fresh {tl : Timeline} {s : Nat} {m : String}
    (h : ∀ p ∈ tl, p.2 ≠ m) :
    List.Perm (zAdd tl s m) ((s, m) :: tl) := by
  rw [zAdd_of_fresh h]
  exact List.perm_orderedInsert _ _ _

theorem storeAll_timeline {es : List Entry} {st : RedisStore}
    (hids : es.Pairwise (fun a b => a.id ≠ b.id))
    (hfresh : ∀ e ∈ es, ∀ p ∈ st.timeline, p.2 ≠ e.id)
    (hsort : List.Sorted tlLe st.timeline) :
    List.Sorted tlLe (RedisAdapter.storeAll es st).timeline ∧
      List.Perm (RedisAdapter.storeAll es st).timeline
        (st.timeline ++ es.map (fun e => (e.createdAt.jsTime, e.id))) := by
  induction es generalizing st with
  | nil => exact ⟨hsort, by simp [RedisAdapter.storeAll]⟩
  | cons e es ih =>
      have step : RedisAdapter.storeAll (e :: es) st =
          RedisAdapter.storeAll es (RedisAdapter.store st e) := rfl
      have htl : (RedisAdapter.store st e).timeline =
          zAdd st.timeline e.createdAt.jsTime e.id := rfl
      have hfr : ∀ p ∈ st.timeline, p.2 ≠ e.id :=
        hfresh e (List.mem_cons_self _ _)
      have hz : List.Perm (RedisAdapter.store st e).timeline
          ((e.createdAt.jsTime, e.id) :: st.timeline) := by
        rw [htl]; exact perm_zAdd_of_fresh hfr
      have hsort' : List.Sorted tlLe (RedisAdapter.store st e).timeline := by
        rw [htl]; exact sorted_zAdd hsort
      obtain ⟨hpe, hpes⟩ := List.pairwise_cons.mp hids
      have hfresh' : ∀ e' ∈ es, ∀ p ∈ (RedisAdapter.store st e).timeline,
          p.2 ≠ e'.id := by
        intro e' he' p hp
        have hp' : p ∈ (e.createdAt.jsTime, e.id) :: st.timeline := hz.subset hp
        rcases List.mem_cons.mp hp' with h0 | h0
        · rw [h0]
          exact hpe e' he'
        · exact hfresh e' (List.mem_cons_of_mem _ he') p h0
      obtain ⟨hs, hperm⟩ := ih hpes hfresh' hsort'
      refine ⟨step ▸ hs, ?_⟩
      rw [step]
      have h1 : List.Perm
          ((RedisAdapter.store st e).timeline ++
            es.map (fun e => (e.createdAt.jsTime, e.id)))
          (((e.createdAt.jsTime, e.id) :: st.timeline) ++
            es.map (fun e => (e.createdAt.jsTime, e.id))) :=
        hz.append_right _
      have h2 : List.Perm
          (st.timeline ++ (e :: es).map (fun e => (e.createdAt.jsTime, e.id)))
          ((e.createdAt.jsTime, e.id) ::
            (st.timeline ++ es.map (fun e => (e.createdAt.jsTime, e.id)))) :=
        List.perm_middle
      exact (hperm.trans h1).trans h2.symm

theorem mem_timeline_storeAll_empty {es : List Entry} {p : Nat × String}
    (hids : es.Pairwise (fun a b => a.id ≠ b.id)) :
    p ∈ (RedisAdapter.storeAll es RedisStore.empty).timeline ↔
      ∃ e ∈ es, p = (e.createdAt.jsTime, e.id) := by
  have h := (@storeAll_timeline es RedisStore.empty hids
    (by intro e _ p hp; cases hp) (by constructor)).2
  rw [h.mem_iff]
  simp [RedisStore.empty, eq_comm]

/-! ### Sorting and permutation helpers -/

theorem perm_pairwise_asymm_eq {α : Type} {r : α → α → Prop}
    (hasymm : ∀ a b, r a b → ¬r b a) :
    ∀ {l₁ l₂ : List α}, List.Perm l₁ l₂ → l₁.Pairwise r → l₂.Pairwise r →
      l₁ = l₂ := by
  intro l₁
  induction l₁ with
  | nil =>
      intro l₂ hp _ _
      exact hp.nil_eq
  | cons a t ih =>
      intro l₂ hp h₁ h₂
      cases l₂ with
      | nil => exact absurd hp.symm.nil_eq (by simp)
      | cons b t₂ =>
          have hab : a = b := by
            by_contra hne
            have ha3 : a ∈ t₂ := by
              rcases List.mem_cons.mp (hp.subset (List.mem_cons_self a t)) with
                h0 | h0
              · exact absurd h0 hne
              · exact h0
            have hba : r b a := (List.pairwise_cons.mp h₂).1 a ha3
            have hb3 : b ∈ t := by
              rcases List.mem_cons.mp
                  (hp.symm.subset (List.mem_cons_self b t₂)) with h0 | h0
              · exact absurd h0.symm hne
              · exact h0
            have hab' : r a b := (List.pairwise_cons.mp h₁).1 b hb3
            exact hasymm a b hab' hba
          subst hab
          rw [ih hp.cons_inv (List.pairwise_cons.mp h₁).2
            (List.pairwise_cons.mp h₂).2]

theorem pairwiseConj {α : Type} {R S : α → α → Prop} :
    ∀ {l : List α}, l.Pairwise R → l.Pairwise S →
      l.Pairwise (fun a b => R a b ∧ S a b) := by
  intro l
  induction l with
  | nil => intro _ _; constructor
  | cons a t ih =>
      intro h₁ h₂
      obtain ⟨h1a, h1t⟩ := List.pairwise_cons.mp h₁
      obtain ⟨h2a, h2t⟩ := List.pairwise_cons.mp h₂
      exact List.pairwise_cons.mpr ⟨fun b hb => ⟨h1a b hb, h2a b hb⟩, ih h1t h2t⟩

theorem sortDesc_perm (l : List Entry) : List.Perm (sortDesc l) l :=
  List.perm_insertionSort _ _

theorem sortDesc_sorted (l : List Entry) : List.Sorted byCreatedDesc (sortDesc l) :=
  List.sorted_insertionSort _ _

theorem strictDesc_asymm : ∀ a b, strictDesc a b → ¬strictDesc b a :=
  fun _ _ h h' => absurd h' (Nat.lt_asymm h)

theorem sortDesc_strict {l : List Entry} (h : l.Pairwise timesNe) :
    (sortDesc l).Pairwise strictDesc := by
  have hne : (sortDesc l).Pairwise timesNe :=
    (List.Perm.pairwise_iff (fun h0 => Ne.symm h0) (sortDesc_perm l)).mpr h
  have hle : (sortDesc l).Pairwise byCreatedDesc := sortDesc_sorted l
  exact (pairwiseConj hle hne).imp
    (fun hab => Nat.lt_of_le_of_ne hab.1 (fun hh => hab.2 hh.symm))

theorem sortDesc_eq_of_perm {l₁ l₂ : List Entry} (hp : List.Perm l₁ l₂)
    (h : l₁.Pairwise timesNe) : sortDesc l₁ = sortDesc l₂ := by
  have h₂ : l₂.Pairwise timesNe :=
    (List.Perm.pairwise_iff (fun h0 => Ne.symm h0) hp).mp h
  exact perm_pairwise_asymm_eq strictDesc_asymm
    ((sortDesc_perm l₁).trans (hp.trans (sortDesc_perm l₂).symm))
    (sortDesc_strict h) (sortDesc_strict h₂)

theorem filterMap_findById_map_id {st : RedisStore} :
    ∀ {l : List Entry}, (∀ e ∈ l, RedisAdapter.findById st e.id = some e) →
      (l.map Entry.id).filterMap (RedisAdapter.findById st) = l := by
  intro l
  induction l with
  | nil => intro _; rfl
  | cons e t ih =>
      intro h
      have he : RedisAdapter.findById st e.id = some e :=
        h e (List.mem_cons_self _ _)
      simp only [List.map_cons, List.filterMap_cons, he]
      rw [ih (fun e' he' => h e' (List.mem_cons_of_mem _ he'))]

/-! ### Claim theorems -/

/-- C5: for every backend state and every filter, `count(filter)` equals
the length of `find` with the same filter — which, by the `count`
signature, carries no limit/offset — for both embedded backends
(RedisAdapter.count and FileStorage.count are fetch-then-measure). -/
theorem count_eq_unpaginated_find_length (rst : RedisStore) (fst : FileState)
    (f : CountFilters) :
    RedisAdapter.count rst f = (RedisAdapter.find rst f.toFind).length ∧
    FileStorage.count fst f = (FileStorage.find fst f.toFind).length :=
  ⟨rfl, rfl⟩

/-- C7: FileStorage.delete is a no-op for every state and filter: it
returns 0 and leaves the stored files (the whole state) unchanged, and
being total it never throws. -/
theorem file_delete_noop (st : FileState) (f : CountFilters) :
    FileStorage.delete st f = (0, st) := rfl

/-- C8 counterexample: the two `new Date()` calls in ActivityLog.log are
separate clock reads; when the clock advances between them (here from
instant 0 to instant 1) the created entry's `updatedAt` differs from its
`createdAt`, so "updatedAt is equal to createdAt" fails as stated. -/
theorem log_updatedAt_ne_createdAt :
    (ActivityLog.log {} plainOpts none "id1" 0 1).updatedAt ≠
      (ActivityLog.log {} plainOpts none "id1" 0 1).createdAt := by
  decide

/-- C8 amended: `createdAt` and `updatedAt` come from two consecutive
clock reads at creation; `updatedAt` is never earlier than `createdAt`,
and the two are equal exactly when the clock did not advance between the
reads (the typical same-millisecond case). -/
theorem log_timestamps_ordered (cfg : ALConfig) (opts : LogOptions)
    (b : Option String) (gid : String) (t1 t2 : Nat) (h : t1 ≤ t2) :
    (ActivityLog.log cfg opts b gid t1 t2).createdAt.jsTime ≤
      (ActivityLog.log cfg opts b gid t1 t2).updatedAt.jsTime ∧
    (t1 = t2 → (ActivityLog.log cfg opts b gid t1 t2).updatedAt =
      (ActivityLog.log cfg opts b gid t1 t2).createdAt) := by
  refine ⟨h, fun h2 => ?_⟩
  subst h2
  rfl

/-- C8 witness: the amended theorem applied at a concrete same-instant
creation. -/
theorem log_timestamps_ordered_witness :
    (ActivityLog.log {} plainOpts none "x" 5 5).createdAt.jsTime ≤
      (ActivityLog.log {} plainOpts none "x" 5 5).updatedAt.jsTime ∧
    (5 = 5 → (ActivityLog.log {} plainOpts none "x" 5 5).updatedAt =
      (ActivityLog.log {} plainOpts none "x" 5 5).createdAt) :=
  log_timestamps_ordered {} plainOpts none "x" 5 5 (Nat.le_refl 5)

/-- C9 counterexample: with `maxProperties` configured to 0, a one-key
mapping exceeds the configured maximum, yet the created entry keeps the
key (the code falls back to the 1000 default on the falsy 0), not the
claimed "first 0 keys". -/
theorem limitProperties_zero_fallback :
    (ActivityLog.log { maxProperties := some 0 }
        { plainOpts with properties := some [("k", "v")] }
        none "x" 0 0).properties = some [("k", "v")] ∧
    (ActivityLog.log { maxProperties := some 0 }
        { plainOpts with properties := some [("k", "v")] }
        none "x" 0 0).properties ≠ some (([("k", "v")] : Properties).take 0) := by
  constructor
  · rfl
  · decide

/-- C9 amended: when the configured `maxProperties` is positive, the
created entry keeps exactly the first `maxProperties` keys in insertion
order (each with its original value), and a mapping with at most that
many keys is retained in full; a configured 0 instead falls back to the
1000 default. -/
theorem log_limits_properties (cfg : ALConfig) (opts : LogOptions)
    (props : Properties) (n : Nat) (b : Option String) (gid : String)
    (t1 t2 : Nat) (hm : cfg.maxProperties = some n) (hn : n ≠ 0)
    (hp : opts.properties = some props) :
    (ActivityLog.log cfg opts b gid t1 t2).properties = some (props.take n) ∧
    (props.length ≤ n →
      (ActivityLog.log cfg opts b gid t1 t2).properties = some props) := by
  have hmain : (ActivityLog.log cfg opts b gid t1 t2).properties =
      some (props.take n) := by
    show ActivityLog.limitProperties cfg opts.properties = some (props.take n)
    rw [hp]
    unfold ActivityLog.limitProperties
    rw [hm]
    simp [hn]
  refine ⟨hmain, fun hlen => ?_⟩
  rw [hmain, List.take_of_length_le hlen]

/-- C9 witness: the amended theorem applied to a three-key mapping capped
at two keys. -/
theorem log_limits_properties_witness :
    (ActivityLog.log { maxProperties := some 2 }
        { plainOpts with properties := some [("a", "1"), ("b", "2"), ("c", "3")] }
        none "x" 0 0).properties =
      some (([("a", "1"), ("b", "2"), ("c", "3")] : Properties).take 2) ∧
    (([("a", "1"), ("b", "2"), ("c", "3")] : Properties).length ≤ 2 →
      (ActivityLog.log { maxProperties := some 2 }
          { plainOpts with properties := some [("a", "1"), ("b", "2"), ("c", "3")] }
          none "x" 0 0).properties =
        some [("a", "1"), ("b", "2"), ("c", "3")]) :=
  log_limits_properties { maxProperties := some 2 }
    { plainOpts with properties := some [("a", "1"), ("b", "2"), ("c", "3")] }
    [("a", "1"), ("b", "2"), ("c", "3")] 2 none "x" 0 0 rfl (by decide) rfl

theorem mapDataToEntry_isoSerialize {e : Entry} (h : e.dateForm) :
    mapDataToEntry (isoSerialize e) = e := by
  obtain ⟨h1, h2⟩ := h
  obtain ⟨i, nm, ds, lv, ev, sb, cs, pr, bt, ca, ua⟩ := e
  simp only [mapDataToEntry, isoSerialize, TimeVal.jsTime] at h1 h2 ⊢
  rw [← h1, ← h2]

theorem getLogFiles_single {st : FileState}
    (h1 : st.files.map Prod.fst = [st.currentFile])
    (h2 : strEndsWith st.currentFile ".log" = true) :
    FileStorage.getLogFiles st = [st.currentFile] := by
  unfold FileStorage.getLogFiles
  rw [h1]
  simp only [List.filter, h2, List.insertionSort, List.orderedInsert,
    List.reverse_singleton]
  by_cases h : optNatTruthy st.cfg.maxFiles
  · rw [if_pos h]
    cases hm : st.cfg.maxFiles with
    | none => rw [hm] at h; cases h
    | some n =>
        rw [hm] at h
        have hn : n ≠ 0 := by simpa [optNatTruthy] using h
        have : (1 : Nat) ≤ n := Nat.one_le_iff_ne_zero.mpr hn
        simp [List.take_of_length_le, this]
  · rw [if_neg h]

theorem rotateFile_below_threshold {st : FileState} {now : DateParts}
    (h : st.currentFileSize < effMaxFileSize st.cfg) :
    FileStorage.rotateFile st now = st := by
  unfold FileStorage.rotateFile
  rw [if_neg (Nat.not_le.mpr h)]

/-- C3 counterexample: on the File backend, `findById(e.id)` right after
`store(e)` returns the JSON-parsed object, whose `createdAt`/`updatedAt`
are ISO strings rather than `Date` values — so the result is not equal to
`e` in all fields (same instants, different type). -/
theorem file_findById_returns_iso_strings :
    FileStorage.findById (FileStorage.store fileStDay1 (mkE "x" 5) dayOne) "x" ≠
      some (mkE "x" 5) ∧
    FileStorage.findById (FileStorage.store fileStDay1 (mkE "x" 5) dayOne) "x" =
      some (isoSerialize (mkE "x" 5)) := by
  constructor
  · decide
  · decide

/-- C3 amended: after `store(e)`, the Redis backend's `findById(e.id)`
returns an entry equal to `e` in all fields (the ISO round-trip restores
the `Date` values at millisecond precision); the File backend instead
returns the entry with `createdAt`/`updatedAt` as ISO strings denoting the
same instants (`isoSerialize e`), not `Date` values. -/
theorem findById_after_store (st : RedisStore) (fs : FileState) (e : Entry)
    (now : DateParts) (hdf : e.dateForm)
    (hempty : fs.files = [])
    (hlog : strEndsWith fs.currentFile ".log" = true)
    (hjson : fs.cfg.ftype = .json)
    (hsize : fs.currentFileSize < effMaxFileSize fs.cfg)
    (hbatch : fs.cfg.enableBatchLogging = false) :
    RedisAdapter.findById (RedisAdapter.store st e) e.id = some e ∧
    FileStorage.findById (FileStorage.store fs e now) e.id =
      some (isoSerialize e) := by
  constructor
  · have h0 : RedisAdapter.findById (RedisAdapter.store st e) e.id =
        (kvGet (kvSet st.records e.id (isoSerialize e)) e.id).map mapDataToEntry :=
      rfl
    rw [h0, kvGet_kvSet, if_pos rfl]
    simp [mapDataToEntry_isoSerialize hdf]
  · have hstore : FileStorage.store fs e now =
        FileStorage.writeEntry fs e now := by
      unfold FileStorage.store
      rw [hbatch]
      simp
    have hst' : FileStorage.writeEntry fs e now =
        { fs with
            files := [(fs.currentFile, [serializeLine fs.cfg e])]
            currentFileSize := fs.currentFileSize +
              (lineByteLength (serializeLine fs.cfg e) + 1) } := by
      unfold FileStorage.writeEntry FileStorage.writeChunk
      rw [rotateFile_below_threshold hsize]
      simp [fsWrite, hempty, fsGet]
    rw [hstore, hst']
    have hfiles : FileStorage.getLogFiles
        { fs with
            files := [(fs.currentFile, [serializeLine fs.cfg e])]
            currentFileSize := fs.currentFileSize +
              (lineByteLength (serializeLine fs.cfg e) + 1) } =
        [fs.currentFile] := by
      apply getLogFiles_single
      · simp
      · exact hlog
    unfold FileStorage.findById
    rw [hfiles]
    have hread : FileStorage.readFile
        { fs with
            files := [(fs.currentFile, [serializeLine fs.cfg e])]
            currentFileSize := fs.currentFileSize +
              (lineByteLength (serializeLine fs.cfg e) + 1) }
        fs.currentFile = [isoSerialize e] := by
      unfold FileStorage.readFile
      simp [fsGet, hjson, serializeLine]
    simp [List.findSome?, hread, isoSerialize]

/-- C3 witness: the amended theorem applied to a concrete entry and a
fresh day-one file state. -/
theorem findById_after_store_witness :
    RedisAdapter.findById (RedisAdapter.store RedisStore.empty (mkE "w" 9))
      (mkE "w" 9).id = some (mkE "w" 9) ∧
    FileStorage.findById (FileStorage.store fileStDay1 (mkE "w" 9) dayOne)
      (mkE "w" 9).id = some (isoSerialize (mkE "w" 9)) :=
  findById_after_store RedisStore.empty fileStDay1 (mkE "w" 9) dayOne
    (by decide) rfl (by decide) rfl (by decide) rfl

/-- C6 counterexample: with the default daily pattern, a zero-size current
file from day one, and the clock now on day two, the pattern would name a
different file — yet the write still goes to the day-one file (the
day-two file is never created), because the pattern is only re-evaluated
when the size threshold is reached. -/
theorem file_write_after_boundary_stays :
    getCurrentFilePath fileStDay1.cfg dayTwo ≠ fileStDay1.currentFile ∧
    (FileStorage.store fileStDay1 (mkE "x" 5) dayTwo).currentFile =
      fileStDay1.currentFile ∧
    fsGet (FileStorage.store fileStDay1 (mkE "x" 5) dayTwo).files
      (getCurrentFilePath fileStDay1.cfg dayTwo) = none ∧
    fsGet (FileStorage.store fileStDay1 (mkE "x" 5) dayTwo).files
      fileStDay1.currentFile = some [serializeLine fileStDay1.cfg (mkE "x" 5)] := by
  refine ⟨by decide, rfl, by decide, by decide⟩

/-- C6 amended: the filename pattern is re-evaluated only when the tracked
current-file size has reached `maxFileSize`; below the threshold a write
goes to the previously computed current file even after a date boundary,
and at or above the threshold a write switches to the freshly computed
path when it differs. -/
theorem file_rotation_only_at_threshold (st : FileState) (now : DateParts)
    (lines : List FileLine) :
    (st.currentFileSize < effMaxFileSize st.cfg →
      FileStorage.rotateFile st now = st ∧
      (FileStorage.writeChunk st lines now).currentFile = st.currentFile) ∧
    (effMaxFileSize st.cfg ≤ st.currentFileSize →
      getCurrentFilePath st.cfg now ≠ st.currentFile →
      (FileStorage.writeChunk st lines now).currentFile =
        getCurrentFilePath st.cfg now) := by
  constructor
  · intro h
    have hrot := @rotateFile_below_threshold st now h
    refine ⟨hrot, ?_⟩
    unfold FileStorage.writeChunk
    rw [hrot]
  · intro h hne
    have hrot : FileStorage.rotateFile st now =
        { st with currentFile := getCurrentFilePath st.cfg now
                  currentFileSize := 0 } := by
      unfold FileStorage.rotateFile
      rw [if_pos h, if_pos hne]
    unfold FileStorage.writeChunk
    rw [hrot]

/-- C6 witness: the amended theorem applied to the day-one state (below
threshold) crossing to day two. -/
theorem file_rotation_only_at_threshold_witness :
    (fileStDay1.currentFileSize < effMaxFileSize fileStDay1.cfg →
      FileStorage.rotateFile fileStDay1 dayTwo = fileStDay1 ∧
      (FileStorage.writeChunk fileStDay1 [FileLine.unparsable] dayTwo).currentFile =
        fileStDay1.currentFile) ∧
    (effMaxFileSize fileStDay1.cfg ≤ fileStDay1.currentFileSize →
      getCurrentFilePath fileStDay1.cfg dayTwo ≠ fileStDay1.currentFile →
      (FileStorage.writeChunk fileStDay1 [FileLine.unparsable] dayTwo).currentFile =
        getCurrentFilePath fileStDay1.cfg dayTwo) :=
  file_rotation_only_at_threshold fileStDay1 dayTwo [FileLine.unparsable]

/-! ### Falsy filter fields impose no constraint -/

theorem optStrTruthy_normStr (o : Option String) :
    optStrTruthy (normStr o) = optStrTruthy o := by
  cases o with
  | none => rfl
  | some s => by_cases h : strTruthy s <;> simp [normStr, optStrTruthy, h]

theorem optSCIdTruthy_normSCId (o : Option SCId) :
    optSCIdTruthy (normSCId o) = optSCIdTruthy o := by
  cases o with
  | none => rfl
  | some v => by_cases h : v.truthy <;> simp [normSCId, optSCIdTruthy, h]

theorem optNatTruthy_normNat (o : Option Nat) :
    optNatTruthy (normNat o) = optNatTruthy o := by
  cases o with
  | none => rfl
  | some n => by_cases h : n = 0 <;> simp [normNat, optNatTruthy, h]

theorem normNat_getD (o : Option Nat) : (normNat o).getD 0 = o.getD 0 := by
  cases o with
  | none => rfl
  | some n => by_cases h : n = 0 <;> simp [normNat, h]

theorem guardFilterStr (o : Option String) (m : Entry → Option String)
    (l : List Entry) :
    (if optStrTruthy (normStr o) then l.filter (fun e => m e == normStr o)
     else l) =
    (if optStrTruthy o then l.filter (fun e => m e == o) else l) := by
  cases o with
  | none => rfl
  | some s => by_cases h : strTruthy s <;> simp [normStr, optStrTruthy, h]

theorem guardFilterSCId (o : Option SCId) (m : Entry → Option SCId)
    (l : List Entry) :
    (if optSCIdTruthy (normSCId o) then l.filter (fun e => m e == normSCId o)
     else l) =
    (if optSCIdTruthy o then l.filter (fun e => m e == o) else l) := by
  cases o with
  | none => rfl
  | some v => by_cases h : v.truthy <;> simp [normSCId, optSCIdTruthy, h]

theorem apply_falsyNormalize (f : Filters) (es : List Entry) :
    ActivityLogQuery.apply (falsyNormalize f) es = ActivityLogQuery.apply f es := by
  unfold ActivityLogQuery.apply
  simp only [falsyNormalize]
  rw [guardFilterStr f.subjectType (fun e => e.subject.map Subject.type)]
  rw [guardFilterSCId f.subjectId (fun e => e.subject.map Subject.id)]
  rw [guardFilterStr f.causerType (fun e => e.causer.map Causer.type)]
  rw [guardFilterSCId f.causerId (fun e => e.causer.map Causer.id)]
  rw [guardFilterStr f.event (fun e => some e.event)]
  rw [guardFilterStr f.level (fun e => some e.level)]
  rw [guardFilterStr f.batchId (fun e => e.batchId)]
  rw [optNatTruthy_normNat, normNat_getD]

theorem boolGuardStr (o : Option String) (x : Option String) :
    (!optStrTruthy (normStr o) || x == normStr o) =
      (!optStrTruthy o || x == o) := by
  cases o with
  | none => rfl
  | some s => by_cases h : strTruthy s <;> simp [normStr, optStrTruthy, h]

theorem boolGuardSCId (o : Option SCId) (x : Option SCId) :
    (!optSCIdTruthy (normSCId o) || x == normSCId o) =
      (!optSCIdTruthy o || x == o) := by
  cases o with
  | none => rfl
  | some v => by_cases h : v.truthy <;> simp [normSCId, optSCIdTruthy, h]

theorem fileMatches_falsyNormalize (f : Filters) :
    fileMatches (falsyNormalize f) = fileMatches f := by
  funext e
  unfold fileMatches
  simp only [falsyNormalize]
  rw [boolGuardStr f.subjectType, boolGuardSCId f.subjectId,
    boolGuardStr f.causerType, boolGuardSCId f.causerId,
    boolGuardStr f.event, boolGuardStr f.level, boolGuardStr f.batchId]

theorem fileFind_falsyNormalize (st : FileState) (f : Filters) :
    FileStorage.find st (falsyNormalize f) = FileStorage.find st f := by
  unfold FileStorage.find
  rw [fileMatches_falsyNormalize f,
    show (falsyNormalize f).offset = normNat f.offset from rfl,
    show (falsyNormalize f).limit = f.limit from rfl,
    optNatTruthy_normNat, normNat_getD]

theorem segStr (o : Option String) (g : String → SetKey) :
    (match normStr o with
     | some v => if strTruthy v then [g v] else []
     | none => ([] : List SetKey)) =
    (match o with
     | some v => if strTruthy v then [g v] else []
     | none => []) := by
  cases o with
  | none => rfl
  | some s => by_cases h : strTruthy s <;> simp [normStr, h]

theorem segSCId (o : Option SCId) (g : String → SetKey) :
    (match normSCId o with
     | some v => if v.truthy then [g v.toKey] else []
     | none => ([] : List SetKey)) =
    (match o with
     | some v => if v.truthy then [g v.toKey] else []
     | none => []) := by
  cases o with
  | none => rfl
  | some v => by_cases h : v.truthy <;> simp [normSCId, h]

theorem filterSetKeys_falsyNormalize (f : Filters) :
    filterSetKeys (falsyNormalize f) = filterSetKeys f := by
  unfold filterSetKeys
  simp only [falsyNormalize]
  rw [segStr f.subjectType SetKey.subjectType,
    segSCId f.subjectId SetKey.subjectId,
    segStr f.causerType SetKey.causerType,
    segSCId f.causerId SetKey.causerId,
    segStr f.event SetKey.event,
    segStr f.level SetKey.level,
    segStr f.batchId SetKey.batch]

theorem redisFind_falsyNormalize (st : RedisStore) (f : Filters) :
    RedisAdapter.find st (falsyNormalize f) = RedisAdapter.find st f := by
  unfold RedisAdapter.find
  rw [filterSetKeys_falsyNormalize]
  simp only [falsyNormalize]
  rw [optNatTruthy_normNat, normNat_getD]

/-- C10: in ActivityLogQuery.apply, RedisAdapter.find and
FileStorage.find, a filter field that is present but falsy — a subject or
causer id equal to 0 or the empty string, an empty-string event, level,
batchId, subjectType or causerType, or an offset equal to 0 — behaves
exactly as if the field were absent: the result equals that of the same
filter with those fields removed (`falsyNormalize`). -/
theorem falsy_filter_fields_ignored (f : Filters) (es : List Entry)
    (rst : RedisStore) (fst : FileState) :
    ActivityLogQuery.apply f es = ActivityLogQuery.apply (falsyNormalize f) es ∧
    RedisAdapter.find rst f = RedisAdapter.find rst (falsyNormalize f) ∧
    FileStorage.find fst f = FileStorage.find fst (falsyNormalize f) :=
  ⟨(apply_falsyNormalize f es).symm, (redisFind_falsyNormalize rst f).symm,
    (fileFind_falsyNormalize fst f).symm⟩

/-! ### The timeline enumerates entries oldest-first -/

theorem sortAsc_perm (l : List Entry) : List.Perm (sortAsc l) l :=
  List.perm_insertionSort _ _

theorem sortAsc_sorted (l : List Entry) : List.Sorted byCreatedAsc (sortAsc l) :=
  List.sorted_insertionSort _ _

theorem sortAsc_strict {l : List Entry} (h : l.Pairwise timesNe) :
    (sortAsc l).Pairwise strictAsc := by
  have hne : (sortAsc l).Pairwise timesNe :=
    (List.Perm.pairwise_iff (fun h0 => Ne.symm h0) (sortAsc_perm l)).mpr h
  have hle : (sortAsc l).Pairwise byCreatedAsc := sortAsc_sorted l
  exact (pairwiseConj hle hne).imp
    (fun hab => Nat.lt_of_le_of_ne hab.1 hab.2)

theorem uniq_of_pairwise_ids {es : List Entry} {e : Entry}
    (h : es.Pairwise (fun a b => a.id ≠ b.id)) (he : e ∈ es) :
    ∀ e' ∈ es, e'.id = e.id → e' = e := by
  induction es with
  | nil => cases he
  | cons a t ih =>
      obtain ⟨ha, ht⟩ := List.pairwise_cons.mp h
      intro e' he' hid
      rcases List.mem_cons.mp he with rfl | het
      · rcases List.mem_cons.mp he' with rfl | het'
        · rfl
        · exact absurd hid (Ne.symm (ha e' het'))
      · rcases List.mem_cons.mp he' with rfl | het'
        · exact absurd hid (ha e het)
        · exact ih ht het e' het' hid

theorem findById_storeAll_of_mem {es : List Entry} {st : RedisStore} {e : Entry}
    (hids : es.Pairwise (fun a b => a.id ≠ b.id)) (he : e ∈ es)
    (hdf : e.dateForm) :
    RedisAdapter.findById (RedisAdapter.storeAll es st) e.id = some e := by
  have h0 : RedisAdapter.findById (RedisAdapter.storeAll es st) e.id =
      (kvGet (RedisAdapter.storeAll es st).records e.id).map mapDataToEntry := rfl
  rw [h0, kvGet_storeAll_of_mem he (uniq_of_pairwise_ids hids he)]
  simp [mapDataToEntry_isoSerialize hdf]

theorem storeAll_timeline_eq_sortAsc {es : List Entry}
    (hids : es.Pairwise (fun a b => a.id ≠ b.id))
    (hts : es.Pairwise timesNe) :
    (RedisAdapter.storeAll es RedisStore.empty).timeline =
      (sortAsc es).map (fun e => (e.createdAt.jsTime, e.id)) := by
  obtain ⟨hsort, hperm⟩ := @storeAll_timeline es RedisStore.empty hids
    (by intro e _ p hp; cases hp) (by constructor)
  have hperm' : List.Perm (RedisAdapter.storeAll es RedisStore.empty).timeline
      (es.map (fun e => (e.createdAt.jsTime, e.id))) := by
    simpa [RedisStore.empty] using hperm
  have hpermR : List.Perm (es.map (fun e => (e.createdAt.jsTime, e.id)))
      ((sortAsc es).map (fun e => (e.createdAt.jsTime, e.id))) :=
    (sortAsc_perm es).symm.map _
  have hfstne : (es.map (fun e => (e.createdAt.jsTime, e.id))).Pairwise
      (fun p q => p.1 ≠ q.1) := by
    rw [List.pairwise_map]
    exact hts
  have hlstrict : (RedisAdapter.storeAll es RedisStore.empty).timeline.Pairwise
      (fun p q => p.1 < q.1) := by
    have hne : (RedisAdapter.storeAll es RedisStore.empty).timeline.Pairwise
        (fun p q => p.1 ≠ q.1) :=
      (List.Perm.pairwise_iff (fun h0 => Ne.symm h0) hperm').mpr hfstne
    exact (pairwiseConj hsort hne).imp (fun hab => by
      rcases hab.1 with h1 | ⟨h1, _⟩
      · exact h1
      · exact absurd h1 hab.2)
  have hrstrict : ((sortAsc es).map (fun e => (e.createdAt.jsTime, e.id))).Pairwise
      (fun p q => p.1 < q.1) := by
    rw [List.pairwise_map]
    exact sortAsc_strict hts
  exact perm_pairwise_asymm_eq (fun p q h h' => absurd h' (Nat.lt_asymm h))
    (hperm'.trans hpermR) hlstrict hrstrict

/-- C1 counterexample: in a store of ten entries with distinct ascending
instants 1..10, `find({limit: 3, offset: 2})` returns the 3rd-5th OLDEST
entries (instants 5, 4, 3, newest-first) — the 3rd newest entry (instant
8) is not in the result, so the result is not the 3rd-5th newest. -/
theorem redis_pagination_counterexample :
    RedisAdapter.find redisTen pagFilter = [mkE "e" 5, mkE "d" 4, mkE "c" 3] ∧
    mkE "h" 8 ∉ RedisAdapter.find redisTen pagFilter := by
  constructor
  · decide
  · decide

/-- C1 amended: pagination in RedisAdapter.find is applied to the raw
timeline enumeration, which is oldest-first; with truthy offset `o` and
limit `l` (and no other filter), `find` returns the slice of the
oldest-first ordering from position `o` of length `l`, then reverses it
by the final newest-first sort — i.e. the (o+1)-th through (o+l)-th
OLDEST entries, not the claimed newest ones. -/
theorem redis_find_paginates_oldest_first (es : List Entry) (o l : Nat)
    (hids : es.Pairwise (fun a b => a.id ≠ b.id))
    (hts : es.Pairwise timesNe)
    (hdf : ∀ e ∈ es, e.dateForm)
    (ho : o ≠ 0) (hl : l ≠ 0) :
    RedisAdapter.find (RedisAdapter.storeAll es RedisStore.empty)
      { offset := some o, limit := some l } =
    (((sortAsc es).drop o).take l).reverse := by
  have hkeys : filterSetKeys { offset := some o, limit := some l } = [] := rfl
  have hids0 : (RedisAdapter.storeAll es RedisStore.empty).timeline.map Prod.snd =
      (sortAsc es).map Entry.id := by
    rw [storeAll_timeline_eq_sortAsc hids hts, List.map_map]
    rfl
  have ho' : optNatTruthy (some o) = true := by simpa [optNatTruthy] using ho
  have hl' : optNatTruthy (some l) = true := by simpa [optNatTruthy] using hl
  have hfind : RedisAdapter.find (RedisAdapter.storeAll es RedisStore.empty)
      { offset := some o, limit := some l } =
      sortDesc ((((sortAsc es).map Entry.id).drop o).take l |>.filterMap
        (RedisAdapter.findById (RedisAdapter.storeAll es RedisStore.empty))) := by
    unfold RedisAdapter.find
    rw [hkeys]
    simp only [List.isEmpty_nil, if_pos, Option.isSome_none, Bool.or_self,
      Bool.false_eq_true, if_false, ho', hl', if_true, hids0, Option.getD_some]
  rw [hfind]
  have hsub : (((sortAsc es).map Entry.id).drop o).take l =
      ((((sortAsc es).drop o).take l).map Entry.id) := by
    rw [← List.map_drop, ← List.map_take]
  rw [hsub]
  set sub := ((sortAsc es).drop o).take l with hsubdef
  have hsubmem : ∀ e ∈ sub, e ∈ es := by
    intro e he
    have h1 : e ∈ (sortAsc es).drop o :=
      List.take_subset _ _ he
    have h2 : e ∈ sortAsc es := List.drop_subset _ _ h1
    exact (sortAsc_perm es).subset h2
  have hfid : ∀ e ∈ sub, RedisAdapter.findById
      (RedisAdapter.storeAll es RedisStore.empty) e.id = some e := by
    intro e he
    exact findById_storeAll_of_mem hids (hsubmem e he) (hdf e (hsubmem e he))
  rw [filterMap_findById_map_id hfid]
  have hstrict : sub.Pairwise strictAsc := by
    have h1 : ((sortAsc es).drop o).Pairwise strictAsc :=
      List.Pairwise.sublist (List.drop_sublist _ _) (sortAsc_strict hts)
    exact List.Pairwise.sublist (List.take_sublist _ _) h1
  have hneTimes : sub.Pairwise timesNe :=
    hstrict.imp (fun hab => Nat.ne_of_lt hab)
  have hrevStrict : sub.reverse.Pairwise strictDesc := by
    rw [List.pairwise_reverse]
    exact hstrict
  exact perm_pairwise_asymm_eq strictDesc_asymm
    ((sortDesc_perm sub).trans (List.reverse_perm sub).symm)
    (sortDesc_strict hneTimes) hrevStrict

/-- C1 witness: the amended theorem applied to the ten-entry store with
offset 2 and limit 3. -/
theorem redis_find_paginates_oldest_first_witness :
    RedisAdapter.find (RedisAdapter.storeAll tenEntries RedisStore.empty)
      { offset := some 2, limit := some 3 } =
    (((sortAsc tenEntries).drop 2).take 3).reverse :=
  redis_find_paginates_oldest_first tenEntries 2 3 (by decide) (by decide)
    (by decide) (by decide) (by decide)

/-! ### Delete removes every trace of a resolved entry -/

theorem entrySetKeys_mapData_iso (d : Entry) :
    entrySetKeys (mapDataToEntry d) = entrySetKeys d := rfl

theorem entrySetKeys_iso (d : Entry) :
    entrySetKeys (isoSerialize d) = entrySetKeys d := rfl

theorem kvGet_deleteFold_preserve_none {l : List Entry} {st : RedisStore}
    {k : String} (h : kvGet st.records k = none) :
    kvGet ((l.foldl redisDeleteOne st)).records k = none := by
  induction l generalizing st with
  | nil => exact h
  | cons en l ih =>
      have step : (en :: l).foldl redisDeleteOne st =
          l.foldl redisDeleteOne (redisDeleteOne st en) := rfl
      rw [step]
      apply ih
      have : (redisDeleteOne st en).records = kvDel st.records en.id := rfl
      rw [this, kvGet_kvDel]
      by_cases hk : k = en.id
      · rw [if_pos hk]
      · rw [if_neg hk]
        exact h

theorem kvGet_deleteFold_none {l : List Entry} {st : RedisStore} {k : String}
    (h : ∃ en ∈ l, en.id = k) :
    kvGet ((l.foldl redisDeleteOne st)).records k = none := by
  induction l generalizing st with
  | nil => obtain ⟨en, hmem, _⟩ := h; cases hmem
  | cons en l ih =>
      have step : (en :: l).foldl redisDeleteOne st =
          l.foldl redisDeleteOne (redisDeleteOne st en) := rfl
      rw [step]
      obtain ⟨en', hmem, hid⟩ := h
      rcases List.mem_cons.mp hmem with rfl | hmem'
      · apply kvGet_deleteFold_preserve_none
        have : (redisDeleteOne st en').records = kvDel st.records en'.id := rfl
        rw [this, kvGet_kvDel, if_pos hid.symm]
      · exact ih ⟨en', hmem', hid⟩

theorem mem_setMembers_deleteFold {l : List Entry} {st : RedisStore}
    {a : String} {k : SetKey} :
    a ∈ setMembers ((l.foldl redisDeleteOne st)).sets k ↔
      a ∈ setMembers st.sets k ∧ ¬∃ en ∈ l, en.id = a ∧ k ∈ entrySetKeys en := by
  induction l generalizing st with
  | nil => simp
  | cons en l ih =>
      have step : (en :: l).foldl redisDeleteOne st =
          l.foldl redisDeleteOne (redisDeleteOne st en) := rfl
      rw [step, ih]
      have : (redisDeleteOne st en).sets = redisRemSets st.sets en := rfl
      rw [this, mem_setMembers_remSets]
      simp only [List.mem_cons]
      constructor
      · rintro ⟨⟨hm, hnot1⟩, hnot2⟩
        refine ⟨hm, ?_⟩
        rintro ⟨en', hmem', rfl, hk'⟩
        rcases hmem' with rfl | hmem'
        · exact hnot1 ⟨hk', rfl⟩
        · exact hnot2 ⟨en', hmem', rfl, hk'⟩
      · rintro ⟨hm, hnot⟩
        refine ⟨⟨hm, ?_⟩, ?_⟩
        · rintro ⟨hk', rfl⟩
          exact hnot ⟨en, Or.inl rfl, rfl, hk'⟩
        · rintro ⟨en', hmem', rfl, hk'⟩
          exact hnot ⟨en', Or.inr hmem', rfl, hk'⟩

theorem mem_timeline_deleteFold {l : List Entry} {st : RedisStore}
    {p : Nat × String} :
    p ∈ ((l.foldl redisDeleteOne st)).timeline ↔
      p ∈ st.timeline ∧ ¬∃ en ∈ l, en.id = p.2 := by
  induction l generalizing st with
  | nil => simp
  | cons en l ih =>
      have step : (en :: l).foldl redisDeleteOne st =
          l.foldl redisDeleteOne (redisDeleteOne st en) := rfl
      rw [step, ih]
      have : (redisDeleteOne st en).timeline =
          st.timeline.filter (fun q => q.2 ≠ en.id) := rfl
      rw [this]
      simp only [List.mem_filter, List.mem_cons, decide_eq_true_eq]
      constructor
      · rintro ⟨⟨hm, hne⟩, hnot⟩
        refine ⟨hm, ?_⟩
        rintro ⟨en', hmem', hid⟩
        rcases hmem' with rfl | hmem'
        · exact hne hid.symm
        · exact hnot ⟨en', hmem', hid⟩
      · rintro ⟨hm, hnot⟩
        refine ⟨⟨hm, fun hid => hnot ⟨en, Or.inl rfl, hid.symm⟩⟩, ?_⟩
        rintro ⟨en', hmem', hid⟩
        exact hnot ⟨en', Or.inr hmem', hid⟩

theorem mem_find_imp_findById {st : RedisStore} {F : Filters} {e : Entry}
    (he : e ∈ RedisAdapter.find st F) :
    ∃ id, RedisAdapter.findById st id = some e := by
  simp only [RedisAdapter.find] at he
  have he' := (sortDesc_perm _).subset he
  obtain ⟨id, _, heq⟩ := List.mem_filterMap.mp he'
  exact ⟨id, heq⟩

theorem find_storeAll_origin {es : List Entry} {F : Filters} {e : Entry}
    (he : e ∈ RedisAdapter.find (RedisAdapter.storeAll es RedisStore.empty) F) :
    ∃ e₀ ∈ es, e.id = e₀.id ∧ entrySetKeys e = entrySetKeys e₀ := by
  obtain ⟨id, hid⟩ := mem_find_imp_findById he
  simp only [RedisAdapter.findById] at hid
  cases hg : kvGet (RedisAdapter.storeAll es RedisStore.empty).records id with
  | none => rw [hg] at hid; cases hid
  | some d =>
      rw [hg] at hid
      have hd : e = mapDataToEntry d := (Option.some_inj.mp hid).symm
      rcases kvGet_storeAll_some hg with h0 | ⟨e₀, hmem, hid0, rfl⟩
      · cases h0
      · refine ⟨e₀, hmem, ?_, ?_⟩
        · rw [hd]
          rfl
        · rw [hd, entrySetKeys_mapData_iso, entrySetKeys_iso]

/-- C4: for the Indexed KV backend, deleting with a filter removes every
resolved entry's primary record, its timeline membership, and its id from
every category-index set: afterwards `findById(e.id)` is not-found and no
category set (and no timeline pair) still carries `e.id`. -/
theorem redis_delete_cleans_indexes (es : List Entry) (f : CountFilters)
    (e : Entry)
    (hids : es.Pairwise (fun a b => a.id ≠ b.id))
    (he : e ∈ RedisAdapter.find (RedisAdapter.storeAll es RedisStore.empty)
      f.toFind) :
    RedisAdapter.findById
      (RedisAdapter.delete (RedisAdapter.storeAll es RedisStore.empty) f).2
      e.id = none ∧
    (∀ k : SetKey, e.id ∉ setMembers
      (RedisAdapter.delete (RedisAdapter.storeAll es RedisStore.empty) f).2.sets
      k) ∧
    (∀ p ∈ (RedisAdapter.delete
        (RedisAdapter.storeAll es RedisStore.empty) f).2.timeline,
      p.2 ≠ e.id) := by
  have hdel : (RedisAdapter.delete (RedisAdapter.storeAll es RedisStore.empty)
      f).2 =
      (RedisAdapter.find (RedisAdapter.storeAll es RedisStore.empty)
        f.toFind).foldl redisDeleteOne
        (RedisAdapter.storeAll es RedisStore.empty) := rfl
  refine ⟨?_, ?_, ?_⟩
  · show (kvGet _ e.id).map mapDataToEntry = none
    rw [hdel, kvGet_deleteFold_none ⟨e, he, rfl⟩]
    rfl
  · intro k hmem
    rw [hdel] at hmem
    obtain ⟨hbefore, hnotdel⟩ := mem_setMembers_deleteFold.mp hmem
    rcases mem_setMembers_storeAll.mp hbefore with h0 | ⟨e₀, hmem0, hid0, hk0⟩
    · simp [RedisStore.empty, setMembers] at h0
    · obtain ⟨e₁, hmem1, hid1, hkeys1⟩ := find_storeAll_origin he
      have he01 : e₀ = e₁ :=
        uniq_of_pairwise_ids hids hmem1 e₀ hmem0 (hid0 ▸ hid1)
      exact hnotdel ⟨e, he, rfl, by rw [hkeys1, ← he01]; exact hk0⟩
  · intro p hp hpe
    rw [hdel] at hp
    obtain ⟨_, hnot⟩ := mem_timeline_deleteFold.mp hp
    exact hnot ⟨e, he, hpe.symm⟩

/-- C4 witness: the theorem applied to a concrete two-entry store and the
subject filter matching the first entry. -/
theorem redis_delete_cleans_indexes_witness :
    RedisAdapter.findById (RedisAdapter.delete twoStore subjFilter).2
      subjEntry.id = none ∧
    (∀ k : SetKey, subjEntry.id ∉ setMembers
      (RedisAdapter.delete twoStore subjFilter).2.sets k) ∧
    (∀ p ∈ (RedisAdapter.delete twoStore subjFilter).2.timeline,
      p.2 ≠ subjEntry.id) :=
  redis_delete_cleans_indexes [subjEntry, mkE "s2" 4] subjFilter subjEntry
    (by decide) (by decide)

/-! ### The query builder as a single predicate -/

theorem stage_mem (c : Bool) (p : Entry → Bool) (l : List Entry) (e : Entry) :
    e ∈ (if c then l.filter p else l) ↔ e ∈ l ∧ (!c || p e) = true := by
  cases c <;> simp [List.mem_filter]

theorem stage_sublist (c : Bool) (p : Entry → Bool) (l : List Entry) :
    (if c then l.filter p else l).Sublist l := by
  cases c <;> simp [List.filter_sublist]

theorem apply_no_pagination_shape (f : Filters) (es : List Entry)
    (hoff : optNatTruthy f.offset = false) (hlim : optNatTruthy f.limit = false) :
    ∃ l, ActivityLogQuery.apply f es = sortDesc l ∧ l.Sublist es ∧
      ∀ e, e ∈ l ↔ e ∈ es ∧ applyMatches f e = true := by
  unfold ActivityLogQuery.apply
  simp only [hoff, hlim, Bool.false_eq_true, if_false]
  refine ⟨_, rfl, ?_, ?_⟩
  · apply (stage_sublist _ _ _).trans
    apply (stage_sublist _ _ _).trans
    apply (stage_sublist _ _ _).trans
    apply (stage_sublist _ _ _).trans
    apply (stage_sublist _ _ _).trans
    apply (stage_sublist _ _ _).trans
    apply (stage_sublist _ _ _).trans
    apply (stage_sublist _ _ _).trans
    exact stage_sublist _ _ _
  · intro e
    simp only [stage_mem, applyMatches, catMatches, dateMatches,
      Bool.and_eq_true]
    tauto

theorem redisFind_no_pagination_shape (st : RedisStore) (f : Filters)
    (hoff : optNatTruthy f.offset = false) (hlim : optNatTruthy f.limit = false) :
    RedisAdapter.find st f =
      sortDesc ((candidateIds st f).filterMap (RedisAdapter.findById st)) := by
  unfold RedisAdapter.find candidateIds
  simp only [hoff, hlim, Bool.false_eq_true, if_false]

/-! ### Category keys versus entry fields -/

theorem subjectTypeKey_eq {e : Entry} {k : SetKey} :
    subjectTypeKey e = some k ↔
      ∃ sub, e.subject = some sub ∧ strTruthy sub.type = true ∧
        k = .subjectType sub.type := by
  cases hs : e.subject with
  | none => simp [subjectTypeKey, hs]
  | some sub =>
      by_cases h : strTruthy sub.type
      · simp [subjectTypeKey, hs, h]
        exact eq_comm
      · simp [subjectTypeKey, hs, h]

theorem subjectIdKey_eq {e : Entry} {k : SetKey} :
    subjectIdKey e = some k ↔
      ∃ sub, e.subject = some sub ∧ sub.id.truthy = true ∧
        k = .subjectId sub.id.toKey := by
  cases hs : e.subject with
  | none => simp [subjectIdKey, hs]
  | some sub =>
      by_cases h : sub.id.truthy
      · simp [subjectIdKey, hs, h]
        exact eq_comm
      · simp [subjectIdKey, hs, h]

theorem causerTypeKey_eq {e : Entry} {k : SetKey} :
    causerTypeKey e = some k ↔
      ∃ c, e.causer = some c ∧ strTruthy c.type = true ∧
        k = .causerType c.type := by
  cases hs : e.causer with
  | none => simp [causerTypeKey, hs]
  | some c =>
      by_cases h : strTruthy c.type
      · simp [causerTypeKey, hs, h]
        exact eq_comm
      · simp [causerTypeKey, hs, h]

theorem causerIdKey_eq {e : Entry} {k : SetKey} :
    causerIdKey e = some k ↔
      ∃ c, e.causer = some c ∧ c.id.truthy = true ∧
        k = .causerId c.id.toKey := by
  cases hs : e.causer with
  | none => simp [causerIdKey, hs]
  | some c =>
      by_cases h : c.id.truthy
      · simp [causerIdKey, hs, h]
        exact eq_comm
      · simp [causerIdKey, hs, h]

theorem eventKey_eq {e : Entry} {k : SetKey} :
    eventKey e = some k ↔
      strTruthy e.event = true ∧ k = .event e.event := by
  by_cases h : strTruthy e.event
  · simp [eventKey, h]
    exact eq_comm
  · simp [eventKey, h]

theorem levelKey_eq {e : Entry} {k : SetKey} :
    levelKey e = some k ↔
      strTruthy e.level = true ∧ k = .level e.level := by
  by_cases h : strTruthy e.level
  · simp [levelKey, h]
    exact eq_comm
  · simp [levelKey, h]

theorem batchKey_eq {e : Entry} {k : SetKey} :
    batchKey e = some k ↔
      ∃ b, e.batchId = some b ∧ strTruthy b = true ∧
        k = .batch b := by
  cases hs : e.batchId with
  | none => simp [batchKey, hs]
  | some b =>
      by_cases h : strTruthy b
      · simp [batchKey, hs, h]
        exact eq_comm
      · simp [batchKey, hs, h]

theorem mem_keys_subjectType {e : Entry} {v : String} (hv : strTruthy v = true) :
    SetKey.subjectType v ∈ entrySetKeys e ↔
      e.subject.map Subject.type = some v := by
  rw [mem_entrySetKeys]
  simp only [subjectTypeKey_eq, subjectIdKey_eq, causerTypeKey_eq,
    causerIdKey_eq, eventKey_eq, levelKey_eq, batchKey_eq,
    Option.map_eq_some', SetKey.subjectType.injEq]
  constructor
  · rintro (⟨sub, hs, ht, rfl⟩ | ⟨sub, _, _, h⟩ | ⟨c, _, _, h⟩ | ⟨c, _, _, h⟩ |
      ⟨_, h⟩ | ⟨_, h⟩ | ⟨b, _, _, h⟩) <;> first
    | exact ⟨sub, hs, rfl⟩
    | cases h
  · rintro ⟨sub, hs, rfl⟩
    exact Or.inl ⟨sub, hs, hv, rfl⟩

theorem mem_keys_causerType {e : Entry} {v : String} (hv : strTruthy v = true) :
    SetKey.causerType v ∈ entrySetKeys e ↔
      e.causer.map Causer.type = some v := by
  rw [mem_entrySetKeys]
  simp only [subjectTypeKey_eq, subjectIdKey_eq, causerTypeKey_eq,
    causerIdKey_eq, eventKey_eq, levelKey_eq, batchKey_eq,
    Option.map_eq_some', SetKey.causerType.injEq]
  constructor
  · rintro (⟨sub, _, _, h⟩ | ⟨sub, _, _, h⟩ | ⟨c, hs, ht, rfl⟩ | ⟨c, _, _, h⟩ |
      ⟨_, h⟩ | ⟨_, h⟩ | ⟨b, _, _, h⟩) <;> first
    | exact ⟨c, hs, rfl⟩
    | cases h
  · rintro ⟨c, hs, rfl⟩
    exact Or.inr (Or.inr (Or.inl ⟨c, hs, hv, rfl⟩))

theorem mem_keys_event {e : Entry} {v : String} (hv : strTruthy v = true) :
    SetKey.event v ∈ entrySetKeys e ↔ e.event = v := by
  rw [mem_entrySetKeys]
  simp only [subjectTypeKey_eq, subjectIdKey_eq, causerTypeKey_eq,
    causerIdKey_eq, eventKey_eq, levelKey_eq, batchKey_eq,
    SetKey.event.injEq]
  constructor
  · rintro (⟨sub, _, _, h⟩ | ⟨sub, _, _, h⟩ | ⟨c, _, _, h⟩ | ⟨c, _, _, h⟩ |
      ⟨ht, hveq⟩ | ⟨_, h⟩ | ⟨b, _, _, h⟩) <;> first
    | exact hveq.symm
    | cases h
  · rintro rfl
    exact Or.inr (Or.inr (Or.inr (Or.inr (Or.inl ⟨hv, rfl⟩))))

theorem mem_keys_level {e : Entry} {v : String} (hv : strTruthy v = true) :
    SetKey.level v ∈ entrySetKeys e ↔ e.level = v := by
  rw [mem_entrySetKeys]
  simp only [subjectTypeKey_eq, subjectIdKey_eq, causerTypeKey_eq,
    causerIdKey_eq, eventKey_eq, levelKey_eq, batchKey_eq,
    SetKey.level.injEq]
  constructor
  · rintro (⟨sub, _, _, h⟩ | ⟨sub, _, _, h⟩ | ⟨c, _, _, h⟩ | ⟨c, _, _, h⟩ |
      ⟨_, h⟩ | ⟨ht, hveq⟩ | ⟨b, _, _, h⟩) <;> first
    | exact hveq.symm
    | cases h
  · rintro rfl
    exact Or.inr (Or.inr (Or.inr (Or.inr (Or.inr (Or.inl ⟨hv, rfl⟩)))))

theorem mem_keys_batch {e : Entry} {v : String} (hv : strTruthy v = true) :
    SetKey.batch v ∈ entrySetKeys e ↔ e.batchId = some v := by
  rw [mem_entrySetKeys]
  simp only [subjectTypeKey_eq, subjectIdKey_eq, causerTypeKey_eq,
    causerIdKey_eq, eventKey_eq, levelKey_eq, batchKey_eq,
    SetKey.batch.injEq]
  constructor
  · rintro (⟨sub, _, _, h⟩ | ⟨sub, _, _, h⟩ | ⟨c, _, _, h⟩ | ⟨c, _, _, h⟩ |
      ⟨_, h⟩ | ⟨_, h⟩ | ⟨b, hb, ht, rfl⟩) <;> first
    | exact hb
    | cases h
  · rintro hb
    exact Or.inr (Or.inr (Or.inr (Or.inr (Or.inr (Or.inr ⟨v, hb, hv, rfl⟩)))))

theorem mem_keys_subjectId {e : Entry} {v : SCId} (hv : v.truthy = true)
    (halias : idAliasFree (some v) (e.subject.map Subject.id)) :
    SetKey.subjectId v.toKey ∈ entrySetKeys e ↔
      e.subject.map Subject.id = some v := by
  rw [mem_entrySetKeys]
  simp only [subjectTypeKey_eq, subjectIdKey_eq, causerTypeKey_eq,
    causerIdKey_eq, eventKey_eq, levelKey_eq, batchKey_eq,
    Option.map_eq_some', SetKey.subjectId.injEq]
  constructor
  · rintro (⟨sub, _, _, h⟩ | ⟨sub, hs, ht, hkey⟩ | ⟨c, _, _, h⟩ | ⟨c, _, _, h⟩ |
      ⟨_, h⟩ | ⟨_, h⟩ | ⟨b, _, _, h⟩)
    · cases h
    · have him : Option.map Subject.id e.subject = some sub.id := by
        rw [hs]; rfl
      exact ⟨sub, hs, (halias v sub.id rfl him hkey).symm⟩
    · cases h
    · cases h
    · cases h
    · cases h
    · cases h
  · rintro ⟨sub, hs, hid⟩
    refine Or.inr (Or.inl ⟨sub, hs, ?_, ?_⟩)
    · rw [hid]; exact hv
    · rw [hid]

theorem mem_keys_causerId {e : Entry} {v : SCId} (hv : v.truthy = true)
    (halias : idAliasFree (some v) (e.causer.map Causer.id)) :
    SetKey.causerId v.toKey ∈ entrySetKeys e ↔
      e.causer.map Causer.id = some v := by
  rw [mem_entrySetKeys]
  simp only [subjectTypeKey_eq, subjectIdKey_eq, causerTypeKey_eq,
    causerIdKey_eq, eventKey_eq, levelKey_eq, batchKey_eq,
    Option.map_eq_some', SetKey.causerId.injEq]
  constructor
  · rintro (⟨sub, _, _, h⟩ | ⟨sub, _, _, h⟩ | ⟨c, _, _, h⟩ | ⟨c, hs, ht, hkey⟩ |
      ⟨_, h⟩ | ⟨_, h⟩ | ⟨b, _, _, h⟩)
    · cases h
    · cases h
    · cases h
    · have him : Option.map Causer.id e.causer = some c.id := by
        rw [hs]; rfl
      exact ⟨c, hs, (halias v c.id rfl him hkey).symm⟩
    · cases h
    · cases h
    · cases h
  · rintro ⟨c, hs, hid⟩
    refine Or.inr (Or.inr (Or.inr (Or.inl ⟨c, hs, ?_, ?_⟩)))
    · rw [hid]; exact hv
    · rw [hid]

theorem seg_subjectType_iff {f : Filters} {e : Entry} :
    (∀ k ∈ (match f.subjectType with
      | some v => if strTruthy v then [SetKey.subjectType v] else []
      | none => ([] : List SetKey)), k ∈ entrySetKeys e) ↔
      (!optStrTruthy f.subjectType ||
        e.subject.map Subject.type == f.subjectType) = true := by
  cases ho : f.subjectType with
  | none => simp [optStrTruthy]
  | some v =>
      by_cases h : strTruthy v
      · simp [h, optStrTruthy, mem_keys_subjectType h]
      · simp [h, optStrTruthy]

theorem seg_subjectId_iff {f : Filters} {e : Entry}
    (ha : idAliasFree f.subjectId (e.subject.map Subject.id)) :
    (∀ k ∈ (match f.subjectId with
      | some v => if v.truthy then [SetKey.subjectId v.toKey] else []
      | none => ([] : List SetKey)), k ∈ entrySetKeys e) ↔
      (!optSCIdTruthy f.subjectId ||
        e.subject.map Subject.id == f.subjectId) = true := by
  cases ho : f.subjectId with
  | none => simp [optSCIdTruthy]
  | some v =>
      by_cases h : v.truthy
      · have ha' : idAliasFree (some v) (e.subject.map Subject.id) := ho ▸ ha
        simp [h, optSCIdTruthy, mem_keys_subjectId h ha']
      · simp [h, optSCIdTruthy]

theorem seg_causerType_iff {f : Filters} {e : Entry} :
    (∀ k ∈ (match f.causerType with
      | some v => if strTruthy v then [SetKey.causerType v] else []
      | none => ([] : List SetKey)), k ∈ entrySetKeys e) ↔
      (!optStrTruthy f.causerType ||
        e.causer.map Causer.type == f.causerType) = true := by
  cases ho : f.causerType with
  | none => simp [optStrTruthy]
  | some v =>
      by_cases h : strTruthy v
      · simp [h, optStrTruthy, mem_keys_causerType h]
      · simp [h, optStrTruthy]

theorem seg_causerId_iff {f : Filters} {e : Entry}
    (ha : idAliasFree f.causerId (e.causer.map Causer.id)) :
    (∀ k ∈ (match f.causerId with
      | some v => if v.truthy then [SetKey.causerId v.toKey] else []
      | none => ([] : List SetKey)), k ∈ entrySetKeys e) ↔
      (!optSCIdTruthy f.causerId ||
        e.causer.map Causer.id == f.causerId) = true := by
  cases ho : f.causerId with
  | none => simp [optSCIdTruthy]
  | some v =>
      by_cases h : v.truthy
      · have ha' : idAliasFree (some v) (e.causer.map Causer.id) := ho ▸ ha
        simp [h, optSCIdTruthy, mem_keys_causerId h ha']
      · simp [h, optSCIdTruthy]

theorem seg_event_iff {f : Filters} {e : Entry} :
    (∀ k ∈ (match f.event with
      | some v => if strTruthy v then [SetKey.event v] else []
      | none => ([] : List SetKey)), k ∈ entrySetKeys e) ↔
      (!optStrTruthy f.event || some e.event == f.event) = true := by
  cases ho : f.event with
  | none => simp [optStrTruthy]
  | some v =>
      by_cases h : strTruthy v
      · simp [h, optStrTruthy, mem_keys_event h]
      · simp [h, optStrTruthy]

theorem seg_level_iff {f : Filters} {e : Entry} :
    (∀ k ∈ (match f.level with
      | some v => if strTruthy v then [SetKey.level v] else []
      | none => ([] : List SetKey)), k ∈ entrySetKeys e) ↔
      (!optStrTruthy f.level || some e.level == f.level) = true := by
  cases ho : f.level with
  | none => simp [optStrTruthy]
  | some v =>
      by_cases h : strTruthy v
      · simp [h, optStrTruthy, mem_keys_level h]
      · simp [h, optStrTruthy]

theorem seg_batch_iff {f : Filters} {e : Entry} :
    (∀ k ∈ (match f.batchId with
      | some v => if strTruthy v then [SetKey.batch v] else []
      | none => ([] : List SetKey)), k ∈ entrySetKeys e) ↔
      (!optStrTruthy f.batchId || e.batchId == f.batchId) = true := by
  cases ho : f.batchId with
  | none => simp [optStrTruthy]
  | some v =>
      by_cases h : strTruthy v
      · simp [h, optStrTruthy, mem_keys_batch h]
      · simp [h, optStrTruthy]

theorem forall_filterSetKeys_iff {f : Filters} {e : Entry}
    (ha1 : idAliasFree f.subjectId (e.subject.map Subject.id))
    (ha2 : idAliasFree f.causerId (e.causer.map Causer.id)) :
    (∀ k ∈ filterSetKeys f, k ∈ entrySetKeys e) ↔ catMatches f e = true := by
  unfold filterSetKeys
  simp only [List.forall_mem_append]
  rw [seg_subjectType_iff, seg_subjectId_iff ha1, seg_causerType_iff,
    seg_causerId_iff ha2, seg_event_iff, seg_level_iff, seg_batch_iff]
  simp only [catMatches, Bool.and_eq_true]

theorem seg_nil_str (o : Option String) (g : String → SetKey) :
    ((match o with
      | some v => if strTruthy v then [g v] else []
      | none => ([] : List SetKey)) = []) ↔ optStrTruthy o = false := by
  cases o with
  | none => simp [optStrTruthy]
  | some v => by_cases h : strTruthy v <;> simp [h, optStrTruthy]

theorem seg_nil_scid (o : Option SCId) (g : String → SetKey) :
    ((match o with
      | some v => if v.truthy then [g v.toKey] else []
      | none => ([] : List SetKey)) = []) ↔ optSCIdTruthy o = false := by
  cases o with
  | none => simp [optSCIdTruthy]
  | some v => by_cases h : v.truthy <;> simp [h, optSCIdTruthy]

theorem filterSetKeys_eq_nil {f : Filters} :
    filterSetKeys f = [] ↔ hasCategorical f = false := by
  unfold filterSetKeys hasCategorical
  simp only [List.append_eq_nil, seg_nil_str, seg_nil_scid,
    Bool.or_eq_false_iff]

theorem catMatches_true_of_no_categorical {f : Filters} {e : Entry}
    (h : hasCategorical f = false) : catMatches f e = true := by
  unfold hasCategorical at h
  simp only [Bool.or_eq_false_iff] at h
  obtain ⟨⟨⟨⟨⟨⟨h1, h2⟩, h3⟩, h4⟩, h5⟩, h6⟩, h7⟩ := h
  simp [catMatches, h1, h2, h3, h4, h5, h6, h7]

theorem mem_sInterList {st : RedisStore} {k : SetKey} {ks : List SetKey}
    {a : String} :
    a ∈ sInterList st (k :: ks) ↔ ∀ k' ∈ k :: ks, a ∈ setMembers st.sets k' := by
  simp [sInterList, List.mem_filter, List.all_eq_true, List.forall_mem_cons]

theorem setMembers_nodup_sAdd {s : Sets} {k : SetKey} {v : String}
    (h : ∀ k', (setMembers s k').Nodup) : ∀ k',
    (setMembers (sAdd s k v) k').Nodup := by
  intro k'
  by_cases hk : k' = k
  · subst hk
    rw [setMembers_sAdd_self]
    by_cases hv : v ∈ setMembers s k'
    · rw [if_pos hv]
      exact h k'
    · rw [if_neg hv]
      simp [List.nodup_append, h k', hv]
  · rw [setMembers_sAdd_other _ _ _ _ hk]
    exact h k'

theorem setMembers_nodup_condSAdd {s : Sets} {o : Option SetKey} {v : String}
    (h : ∀ k', (setMembers s k').Nodup) : ∀ k',
    (setMembers (condSAdd s o v) k').Nodup := by
  cases o with
  | none => exact h
  | some key => exact setMembers_nodup_sAdd h

theorem setMembers_nodup_storeSets {s : Sets} {e : Entry}
    (h : ∀ k', (setMembers s k').Nodup) : ∀ k',
    (setMembers (redisStoreSets s e) k').Nodup := by
  unfold redisStoreSets
  exact setMembers_nodup_condSAdd (setMembers_nodup_condSAdd
    (setMembers_nodup_condSAdd (setMembers_nodup_condSAdd
      (setMembers_nodup_condSAdd (setMembers_nodup_condSAdd
        (setMembers_nodup_condSAdd h))))))

theorem setMembers_nodup_storeAll {es : List Entry} {st : RedisStore}
    (h : ∀ k', (setMembers st.sets k').Nodup) : ∀ k',
    (setMembers (RedisAdapter.storeAll es st).sets k').Nodup := by
  induction es generalizing st with
  | nil => exact h
  | cons e es ih =>
      have step : RedisAdapter.storeAll (e :: es) st =
          RedisAdapter.storeAll es (RedisAdapter.store st e) := rfl
      rw [step]
      exact ih (setMembers_nodup_storeSets h)

theorem setMembers_storeAll_empty_nodup {es : List Entry} : ∀ k,
    (setMembers (RedisAdapter.storeAll es RedisStore.empty).sets k).Nodup :=
  setMembers_nodup_storeAll (by intro k'; simp [RedisStore.empty, setMembers])

theorem timeline_ids_nodup {es : List Entry}
    (hids : es.Pairwise (fun a b => a.id ≠ b.id))
    (hts : es.Pairwise timesNe) :
    ((RedisAdapter.storeAll es RedisStore.empty).timeline.map Prod.snd).Nodup := by
  rw [storeAll_timeline_eq_sortAsc hids hts, List.map_map]
  have hcomp : Prod.snd ∘ (fun e : Entry => (e.createdAt.jsTime, e.id)) =
      Entry.id := rfl
  rw [hcomp]
  have hperm : (sortAsc es).Pairwise (fun a b => a.id ≠ b.id) :=
    (List.Perm.pairwise_iff (fun h0 => Ne.symm h0) (sortAsc_perm es)).mpr hids
  exact List.pairwise_map.mpr hperm

theorem dateMatches_iff_bounds {f : Filters} {e : Entry} (hdf : e.dateForm) :
    dateMatches f e = true ↔
      ((∀ t, f.fromDate = some t → t ≤ e.createdAt.jsTime) ∧
       (∀ t, f.toDate = some t → e.createdAt.jsTime ≤ t)) := by
  obtain ⟨h1, _⟩ := hdf
  unfold dateMatches
  cases hf : f.fromDate <;> cases ht : f.toDate <;>
    rw [h1] <;>
    simp [TimeVal.jsGeDate, TimeVal.jsLeDate, TimeVal.jsTime]

theorem dateMatches_true_of_none {f : Filters} {e : Entry}
    (hf : f.fromDate = none) (ht : f.toDate = none) :
    dateMatches f e = true := by
  simp [dateMatches, hf, ht]

theorem mem_zRangeByScore {tl : Timeline} {lo hi : Option Nat} {a : String} :
    a ∈ zRangeByScore tl lo hi ↔ ∃ p ∈ tl, p.2 = a ∧
      (∀ t, lo = some t → t ≤ p.1) ∧ (∀ t, hi = some t → p.1 ≤ t) := by
  simp only [zRangeByScore, List.mem_map, List.mem_filter]
  constructor
  · rintro ⟨p, ⟨hp, hcond⟩, rfl⟩
    simp only [Bool.and_eq_true] at hcond
    obtain ⟨h1, h2⟩ := hcond
    refine ⟨p, hp, rfl, ?_, ?_⟩
    · intro t hlo
      rw [hlo] at h1
      simpa using h1
    · intro t hhi
      rw [hhi] at h2
      simpa using h2
  · rintro ⟨p, hp, hpa, hlo, hhi⟩
    refine ⟨p, ⟨hp, ?_⟩, hpa⟩
    simp only [Bool.and_eq_true]
    constructor
    · cases hl : lo with
      | none => simp
      | some t => simpa using hlo t hl
    · cases hh : hi with
      | none => simp
      | some t => simpa using hhi t hh

theorem mem_candidateIds_iff {es : List Entry} {f : Filters} {a : String}
    (hids : es.Pairwise (fun a b => a.id ≠ b.id))
    (hdf : ∀ e ∈ es, e.dateForm)
    (ha1 : ∀ e ∈ es, idAliasFree f.subjectId (e.subject.map Subject.id))
    (ha2 : ∀ e ∈ es, idAliasFree f.causerId (e.causer.map Causer.id)) :
    a ∈ candidateIds (RedisAdapter.storeAll es RedisStore.empty) f ↔
      ∃ e ∈ es, a = e.id ∧ applyMatches f e = true := by
  have hbase : a ∈ (if (filterSetKeys f).isEmpty
        then (RedisAdapter.storeAll es RedisStore.empty).timeline.map Prod.snd
        else sInterList (RedisAdapter.storeAll es RedisStore.empty)
          (filterSetKeys f)) ↔
      ∃ e ∈ es, a = e.id ∧ catMatches f e = true := by
    by_cases hcat : (filterSetKeys f).isEmpty = true
    · have hnil : filterSetKeys f = [] := by
        cases hfk : filterSetKeys f with
        | nil => rfl
        | cons k ks => rw [hfk] at hcat; cases hcat
      have hnc : hasCategorical f = false := filterSetKeys_eq_nil.mp hnil
      rw [if_pos hcat]
      simp only [List.mem_map]
      constructor
      · rintro ⟨p, hp, rfl⟩
        obtain ⟨e, he, hpe⟩ := (mem_timeline_storeAll_empty hids).mp hp
        subst hpe
        exact ⟨e, he, rfl, catMatches_true_of_no_categorical hnc⟩
      · rintro ⟨e, he, rfl, -⟩
        exact ⟨(e.createdAt.jsTime, e.id),
          (mem_timeline_storeAll_empty hids).mpr ⟨e, he, rfl⟩, rfl⟩
    · rw [if_neg hcat]
      cases hfk : filterSetKeys f with
      | nil => rw [hfk] at hcat; exact absurd rfl hcat
      | cons k ks =>
          rw [@mem_sInterList (RedisAdapter.storeAll es RedisStore.empty) k ks a]
          constructor
          · intro hall
            have hall' : ∀ k' ∈ filterSetKeys f, a ∈ setMembers
                (RedisAdapter.storeAll es RedisStore.empty).sets k' := by
              rw [hfk]; exact hall
            have hk0 : k ∈ filterSetKeys f := by
              rw [hfk]; exact List.mem_cons_self _ _
            have h0 := (mem_setMembers_storeAll.mp (hall' k hk0)).resolve_left
              (by simp [RedisStore.empty, setMembers])
            obtain ⟨e, he, hae, _⟩ := h0
            subst hae
            refine ⟨e, he, rfl,
              (forall_filterSetKeys_iff (ha1 e he) (ha2 e he)).mp ?_⟩
            intro k' hk'
            have h1 := (mem_setMembers_storeAll.mp (hall' k' hk')).resolve_left
              (by simp [RedisStore.empty, setMembers])
            obtain ⟨e', he', hid', hk''⟩ := h1
            have heq : e' = e := uniq_of_pairwise_ids hids he e' he' hid'.symm
            exact heq ▸ hk''
          · rintro ⟨e, he, rfl, hcm⟩
            intro k' hk'
            have hk2 : k' ∈ filterSetKeys f := by rw [hfk]; exact hk'
            exact mem_setMembers_storeAll.mpr (Or.inr ⟨e, he, rfl,
              (forall_filterSetKeys_iff (ha1 e he) (ha2 e he)).mpr hcm k' hk2⟩)
  by_cases hdate : (f.fromDate.isSome || f.toDate.isSome) = true
  · unfold candidateIds
    simp only [hdate, if_true]
    rw [List.mem_filter]
    simp only [decide_eq_true_eq]
    rw [hbase]
    constructor
    · rintro ⟨⟨e, he, rfl, hcm⟩, hr⟩
      obtain ⟨p, hp, hpa, hlo, hhi⟩ := mem_zRangeByScore.mp hr
      obtain ⟨e', he', hpe⟩ := (mem_timeline_storeAll_empty hids).mp hp
      have hide : e' = e := by
        apply uniq_of_pairwise_ids hids he e' he'
        rw [hpe] at hpa
        exact hpa
      subst hide
      rw [hpe] at hlo hhi
      refine ⟨e', he', rfl, ?_⟩
      simp only [applyMatches, Bool.and_eq_true]
      exact ⟨hcm, (dateMatches_iff_bounds (hdf e' he')).mpr
        ⟨fun t h0 => hlo t h0, fun t h0 => hhi t h0⟩⟩
    · rintro ⟨e, he, rfl, ham⟩
      simp only [applyMatches, Bool.and_eq_true] at ham
      obtain ⟨hcm, hdm⟩ := ham
      refine ⟨⟨e, he, rfl, hcm⟩, ?_⟩
      apply mem_zRangeByScore.mpr
      refine ⟨(e.createdAt.jsTime, e.id),
        (mem_timeline_storeAll_empty hids).mpr ⟨e, he, rfl⟩, rfl, ?_, ?_⟩
      · exact fun t h0 => ((dateMatches_iff_bounds (hdf e he)).mp hdm).1 t h0
      · exact fun t h0 => ((dateMatches_iff_bounds (hdf e he)).mp hdm).2 t h0
  · have hf : f.fromDate = none := by
      cases hfd : f.fromDate with
      | none => rfl
      | some t => rw [hfd] at hdate; simp at hdate
    have ht : f.toDate = none := by
      cases htd : f.toDate with
      | none => rfl
      | some t => rw [htd] at hdate; simp at hdate
    unfold candidateIds
    rw [hf, ht]
    simp only [Option.isSome_none, Bool.or_self, Bool.false_eq_true, if_false]
    rw [hbase]
    simp [applyMatches, Bool.and_eq_true, dateMatches_true_of_none hf ht]

theorem candidateIds_nodup {es : List Entry} {f : Filters}
    (hids : es.Pairwise (fun a b => a.id ≠ b.id))
    (hts : es.Pairwise timesNe) :
    (candidateIds (RedisAdapter.storeAll es RedisStore.empty) f).Nodup := by
  unfold candidateIds
  have hi : (if (filterSetKeys f).isEmpty
      then (RedisAdapter.storeAll es RedisStore.empty).timeline.map Prod.snd
      else sInterList (RedisAdapter.storeAll es RedisStore.empty)
        (filterSetKeys f)).Nodup := by
    by_cases hcat : (filterSetKeys f).isEmpty = true
    · rw [if_pos hcat]
      exact timeline_ids_nodup hids hts
    · rw [if_neg hcat]
      cases hfk : filterSetKeys f with
      | nil => rw [hfk] at hcat; exact absurd rfl hcat
      | cons k ks =>
          exact List.Nodup.filter _ (setMembers_storeAll_empty_nodup k)
  by_cases hdate : (f.fromDate.isSome || f.toDate.isSome) = true
  · simp only [hdate, if_true]
    exact List.Nodup.filter _ hi
  · simp only [Bool.not_eq_true] at hdate
    simp only [hdate, Bool.false_eq_true, if_false]
    exact hi

theorem findById_storeAll_id {es : List Entry} {a : String} {e' : Entry}
    (h : RedisAdapter.findById (RedisAdapter.storeAll es RedisStore.empty) a =
      some e') : e'.id = a := by
  simp only [RedisAdapter.findById] at h
  cases hg : kvGet (RedisAdapter.storeAll es RedisStore.empty).records a with
  | none => rw [hg] at h; cases h
  | some d =>
      rw [hg] at h
      have hd : e' = mapDataToEntry d := (Option.some_inj.mp h).symm
      rcases kvGet_storeAll_some hg with h0 | ⟨e₀, _, hid0, rfl⟩
      · cases h0
      · rw [hd]
        exact hid0

theorem filterMap_nodup_of_id {g : String → Option Entry}
    (hg : ∀ a e, g a = some e → e.id = a) :
    ∀ {l : List String}, l.Nodup → (l.filterMap g).Nodup := by
  intro l
  induction l with
  | nil => intro _; simp
  | cons a t ih =>
      intro h
      obtain ⟨ha, ht⟩ := List.nodup_cons.mp h
      cases hga : g a with
      | none => simpa [List.filterMap_cons, hga] using ih ht
      | some e =>
          simp only [List.filterMap_cons, hga]
          refine List.nodup_cons.mpr ⟨?_, ih ht⟩
          intro hmem
          obtain ⟨a', ha', hga'⟩ := List.mem_filterMap.mp hmem
          have haa : a' = a := by
            rw [← hg a' e hga', hg a e hga]
          exact ha (haa ▸ ha')

theorem nodup_of_pairwise_ids {es : List Entry}
    (hids : es.Pairwise (fun a b => a.id ≠ b.id)) : es.Nodup :=
  hids.imp (fun h heq => h (by rw [heq]))

/-- C2 counterexample: two entries (instants 1 and 2) and the filter
`{limit: 1}`: the in-memory evaluator sorts newest-first before
truncating and returns the newest entry, while the Redis adapter
truncates the oldest-first timeline before sorting and returns the oldest
— the results differ, so apply and find are not equivalent. -/
theorem apply_ne_redis_find_on_pagination :
    ActivityLogQuery.apply { limit := some 1 } [mkE "a" 1, mkE "b" 2] =
      [mkE "b" 2] ∧
    RedisAdapter.find
      (RedisAdapter.storeAll [mkE "a" 1, mkE "b" 2] RedisStore.empty)
      { limit := some 1 } = [mkE "a" 1] ∧
    ActivityLogQuery.apply { limit := some 1 } [mkE "a" 1, mkE "b" 2] ≠
      RedisAdapter.find
        (RedisAdapter.storeAll [mkE "a" 1, mkE "b" 2] RedisStore.empty)
        { limit := some 1 } := by
  refine ⟨by decide, by decide, by decide⟩

/-- C2 amended: ActivityLogQuery.apply agrees with the Indexed KV
backend's find over a store of the same entries whenever (a) the filter
carries no truthy limit or offset (pagination is applied at different
pipeline stages and diverges), (b) the entries have pairwise distinct ids
and pairwise distinct creation instants (ties make the order depend on
Redis's unspecified set order), (c) the entries carry `Date` timestamps,
and (d) no string/number id aliasing relates the filter's subject/causer
id to an entry id (the set keys stringify both, while apply compares with
strict equality). -/
theorem apply_matches_redis_find_unpaginated (es : List Entry) (f : Filters)
    (hids : es.Pairwise (fun a b => a.id ≠ b.id))
    (hts : es.Pairwise timesNe)
    (hdf : ∀ e ∈ es, e.dateForm)
    (hoff : optNatTruthy f.offset = false)
    (hlim : optNatTruthy f.limit = false)
    (ha1 : ∀ e ∈ es, idAliasFree f.subjectId (e.subject.map Subject.id))
    (ha2 : ∀ e ∈ es, idAliasFree f.causerId (e.causer.map Causer.id)) :
    ActivityLogQuery.apply f es =
      RedisAdapter.find (RedisAdapter.storeAll es RedisStore.empty) f := by
  obtain ⟨l, happly, hsubl, hmem⟩ := apply_no_pagination_shape f es hoff hlim
  rw [happly, redisFind_no_pagination_shape _ f hoff hlim]
  have hlnodup : l.Nodup := List.Nodup.sublist hsubl (nodup_of_pairwise_ids hids)
  have hfnodup : ((candidateIds (RedisAdapter.storeAll es RedisStore.empty)
      f).filterMap
      (RedisAdapter.findById (RedisAdapter.storeAll es RedisStore.empty))).Nodup :=
    filterMap_nodup_of_id (fun a e h => findById_storeAll_id h)
      (candidateIds_nodup hids hts)
  apply sortDesc_eq_of_perm
  · apply (List.perm_ext_iff_of_nodup hlnodup hfnodup).mpr
    intro x
    rw [hmem x, List.mem_filterMap]
    constructor
    · rintro ⟨hx, hm⟩
      exact ⟨x.id, (mem_candidateIds_iff hids hdf ha1 ha2).mpr ⟨x, hx, rfl, hm⟩,
        findById_storeAll_of_mem hids hx (hdf x hx)⟩
    · rintro ⟨a, hc, hfb⟩
      obtain ⟨e, he, rfl, hm⟩ := (mem_candidateIds_iff hids hdf ha1 ha2).mp hc
      have hxe : x = e := by
        have h2 := @findById_storeAll_of_mem es RedisStore.empty e hids he
          (hdf e he)
        rw [hfb] at h2
        exact (Option.some_inj.mp h2)
      exact hxe ▸ ⟨he, hm⟩
  · exact List.Pairwise.sublist hsubl hts

/-- C2 witness: the amended equivalence applied to the ten-entry store
with an `event` filter. -/
theorem apply_matches_redis_find_unpaginated_witness :
    ActivityLogQuery.apply { event := some "created" } tenEntries =
      RedisAdapter.find (RedisAdapter.storeAll tenEntries RedisStore.empty)
        { event := some "created" } :=
  apply_matches_redis_find_unpaginated tenEntries { event := some "created" }
    (by decide) (by decide) (by decide) rfl rfl
    (by intro e _ fv sv h1 _ _; exact Option.noConfusion h1)
    (by intro e _ fv sv h1 _ _; exact Option.noConfusion h1)
